import Mathlib

/-!
# go-torch-demo: feature encoding and validation metrics

A shallow embedding of `utils.go`, `features.go`, the tensor factories and
the handle methods of `torch_bindings.go`, and the scoring loop of `main.go`.

Modelling conventions

* In the feature encoding, which moves floating-point values without
  computing on them, a Go `float64` or `float32` value is the rational number
  it denotes (`Float64`, `Float32`), and the library routines that round,
  parse or print such values are parameters, collected in `FloatEnv`.
* In the scoring loop, which computes on `float64` values, a value is a
  `Binary64`: a finite rational, an infinity or a NaN, and every operation
  rounds its exact result as IEEE 754 binary64 does (`round64`).
* Go `int` values are unbounded (`Int`, or `Nat` for lengths and indices).
* A Go `map[string]T` is a lookup function `String → Option T`.
* Standard output is the list of printed chunks, in order.
* The native engine is a state (`Native`) holding an oracle for the outcome
  of each allocation, the live pointers and the log of calls; the nil pointer
  is `0`.
-/

namespace TorchDemo

/-! ## Data model (`types.go`) -/

/-- Go `float64`, as the rational it denotes. -/
abbrev Float64 := ℚ

/-- Go `float32`, as the rational it denotes. -/
abbrev Float32 := ℚ

/-- Floating-point library routines used by the program. -/
structure FloatEnv where
  /-- The conversion `float32(x)`: rounding to single precision. -/
  toFloat32 : ℚ → Float32
  /-- The call `fmt.Sscanf(s, "%f", &r)`: `some r` when it reports one scanned
  item and no error, `none` otherwise. -/
  sscanf : String → Option Float64
  /-- The rendering `fmt.Sprintf("%v", x)` of a `float64`. -/
  formatFloat64 : Float64 → String
  /-- The rendering `fmt.Sprintf("%v", x)` of a `float32`. -/
  formatFloat32 : Float32 → String

/-- Dynamic values: what a Go `interface{}` of a record may hold. The integer
payloads are the mathematical value of the machine integer. -/
inductive Value where
  | float64 (v : Float64)
  | float32 (v : Float32)
  | int (v : Int)
  | int8 (v : Int)
  | int16 (v : Int)
  | int32 (v : Int)
  | int64 (v : Int)
  | uint64 (v : Nat)
  | string (v : String)
  | bool (v : Bool)
  | nil
  /-- Any other dynamic type (slice, map, ...), with its `%v` rendering. -/
  | other (rendering : String)
  deriving DecidableEq

/-- Go `LabelEncoder`. -/
structure LabelEncoder where
  Classes : List String
  Dtype : String
  deriving DecidableEq

/-- Go `MissingValueHandling`, restricted to the field the pipeline reads. -/
structure MissingValueHandling where
  LabelEncoders : String → Option LabelEncoder

/-- Go `FeatureInfo`, restricted to the fields the pipeline reads. -/
structure FeatureInfo where
  FeatureNames : String → Option (List String)
  MissingValueHandling : MissingValueHandling

/-- Go `ValidationData`: `map[string]interface{}`. -/
abbrev ValidationData := String → Option Value

/-! ## `utils.go` -/

/-- Go `getFeatureValue`. -/
def getFeatureValue (sample : ValidationData) (featureName : String) : Except String Value :=
  match sample featureName with
  | none => .error ("feature " ++ featureName ++ " not found in sample")
  | some value => .ok value

/-- Go `convertToFloat32`: the type switch, case by case. -/
def convertToFloat32 (env : FloatEnv) (value : Value) : Float32 :=
  match value with
  | .float64 v => env.toFloat32 v
  | .float32 v => v
  | .int v => env.toFloat32 (v : ℚ)
  | .int64 v => env.toFloat32 (v : ℚ)
  | .string v =>
    match env.sscanf v with
    | some result => env.toFloat32 result
    | none => 0
  | _ => 0

/-- The `for i, class := range encoder.Classes` loop of
`encodeCategoricalFromEncoder`, started at index `i`: the index of the first
class equal to `value`, if any. -/
def findClass (value : String) : List String → Nat → Option Nat
  | [], _ => none
  | cls :: rest, i => if cls = value then some i else findClass value rest (i + 1)

/-- The line printed by `encodeCategoricalFromEncoder` for an unknown value. -/
def unknownWarning (value : String) : String :=
  "WARNING: Unknown categorical value \x27" ++ value ++
    "\x27 not found in encoder classes, using index 0\n"

/-- Go `encodeCategoricalFromEncoder`: the returned index and what it prints. -/
def encodeCategoricalFromEncoder (value : String) (encoder : LabelEncoder) : Nat × List String :=
  match findClass value encoder.Classes 0 with
  | some i => (i, [])
  | none => (0, [unknownWarning value])

/-- The rendering `fmt.Sprintf("%v", value)` of a dynamic value. -/
def sprintV (env : FloatEnv) : Value → String
  | .float64 v => env.formatFloat64 v
  | .float32 v => env.formatFloat32 v
  | .int v => toString v
  | .int8 v => toString v
  | .int16 v => toString v
  | .int32 v => toString v
  | .int64 v => toString v
  | .uint64 v => toString v
  | .string v => v
  | .bool v => if v then "true" else "false"
  | .nil => "<nil>"
  | .other rendering => rendering

/-! ## The native engine and the tensor factories (`torch_bindings.go`) -/

/-- Calls across the C boundary, with their arguments. -/
inductive NativeCall where
  | create_tensor_from_data (data : List Float32) (dims : List Int)
  | create_int_tensor_from_data (data : List Float32) (dims : List Int)
  | free_tensor (ptr : Nat)
  | free_torch_module (ptr : Nat)
  | forward_module (module numerical_input categorical_input : Nat)
  | get_tensor_numel (ptr : Nat)
  | get_tensor_data (ptr : Nat)
  deriving DecidableEq

/-- State of the native engine. -/
structure Native where
  /-- Oracle: whether the `k`-th allocation request (counted from 0) succeeds. -/
  allocOk : Nat → Bool
  /-- Number of allocation requests made so far. -/
  allocs : Nat
  /-- Pointers of the live native tensors. -/
  live : List Nat
  /-- Calls made so far, oldest first. -/
  log : List NativeCall

/-- A native allocation: a fresh non-nil pointer when the oracle lets the
request succeed, the nil pointer `0` otherwise; the call is logged. -/
def Native.alloc (N : Native) (call : NativeCall) : Nat × Native :=
  if N.allocOk N.allocs then
    (N.allocs + 1,
      { N with allocs := N.allocs + 1, live := (N.allocs + 1) :: N.live, log := N.log ++ [call] })
  else
    (0, { N with allocs := N.allocs + 1, log := N.log ++ [call] })

/-- Go `TorchTensor`: a handle on a native tensor. -/
structure TorchTensor where
  ptr : Nat
  deriving DecidableEq

/-- Go `createTensorFromData`. The dimension list is never empty at the call
sites, so that `&cDims[0]` is defined. -/
def createTensorFromData (data : List Float32) (dims : List Int) (N : Native) :
    Except String TorchTensor × Native :=
  if data.length = 0 then (.error "data is empty", N)
  else
    let r := N.alloc (.create_tensor_from_data data dims)
    if r.1 = 0 then (.error "failed to create tensor", r.2)
    else (.ok { ptr := r.1 }, r.2)

/-- Go `createIntTensorFromData`. -/
def createIntTensorFromData (data : List Float32) (dims : List Int) (N : Native) :
    Except String TorchTensor × Native :=
  if data.length = 0 then (.error "data is empty", N)
  else
    let r := N.alloc (.create_int_tensor_from_data data dims)
    if r.1 = 0 then (.error "failed to create integer tensor", r.2)
    else (.ok { ptr := r.1 }, r.2)

/-! ## Handles: use and release (`torch_bindings.go`, lines 30-120) -/

/-- Go `TorchModule`: a handle on a native module. -/
structure TorchModule where
  ptr : Nat
  deriving DecidableEq

/-- What the native engine answers about a tensor pointer. -/
structure TensorMemory where
  /-- The result of `get_tensor_numel`. -/
  numel : Nat → Int
  /-- The result of `get_tensor_data`: `none` for a nil data pointer, else the
  floats stored from the data pointer on, by index. -/
  data : Nat → Option (Nat → Float32)

/-- A native call that allocates nothing: it is logged. -/
def Native.call (N : Native) (call : NativeCall) : Native :=
  { N with log := N.log ++ [call] }

/-- Go `(*TorchModule).Forward`. -/
def TorchModule.Forward (m : TorchModule) (numericalInput categoricalInput : TorchTensor)
    (N : Native) : Except String TorchTensor × Native :=
  if m.ptr = 0 then (.error "module is nil", N)
  else if numericalInput.ptr = 0 then (.error "numerical input tensor is nil", N)
  else if categoricalInput.ptr = 0 then (.error "categorical input tensor is nil", N)
  else
    let r := N.alloc (.forward_module m.ptr numericalInput.ptr categoricalInput.ptr)
    if r.1 = 0 then (.error "forward pass failed", r.2)
    else (.ok { ptr := r.1 }, r.2)

/-- Go `(*TorchModule).Free`: the handle after the call and the engine. -/
def TorchModule.Free (m : TorchModule) (N : Native) : TorchModule × Native :=
  if m.ptr ≠ 0 then ({ ptr := 0 }, N.call (.free_torch_module m.ptr))
  else (m, N)

/-- Outcome of `ToFloat64Slice`: the slice, the returned error, or the
run-time panic of the slice expression of line 105 when the element count
exceeds the array length `1 << 30`. -/
inductive SliceOutcome where
  | values (result : List Float64)
  | error (msg : String)
  | panic
  deriving DecidableEq

/-- Go `(*TorchTensor).ToFloat64Slice`. The widening `float64(v)` of a
`float32` is exact. -/
def TorchTensor.ToFloat64Slice (M : TensorMemory) (t : TorchTensor) (N : Native) :
    SliceOutcome × Native :=
  if t.ptr = 0 then (.error "tensor is nil", N)
  else
    let numel := M.numel t.ptr
    let N1 := N.call (.get_tensor_numel t.ptr)
    if numel ≤ 0 then (.error "tensor has no elements", N1)
    else
      let N2 := N1.call (.get_tensor_data t.ptr)
      match M.data t.ptr with
      | none => (.error "failed to get tensor data pointer", N2)
      | some floats =>
        if numel > 2 ^ 30 then (.panic, N2)
        else (.values ((List.range numel.toNat).map (fun i => floats i)), N2)

/-- Go `(*TorchTensor).Free`: the handle after the call and the engine, in
which the tensor is no longer live. -/
def TorchTensor.Free (t : TorchTensor) (N : Native) : TorchTensor × Native :=
  if t.ptr ≠ 0 then
    ({ ptr := 0 },
      { N with live := N.live.erase t.ptr, log := N.log ++ [.free_tensor t.ptr] })
  else (t, N)

/-- The operations a program applies to one tensor handle `t`. -/
inductive TensorOp where
  /-- The call `t.Free()`. -/
  | Free
  /-- The call `t.ToFloat64Slice()`. -/
  | ToFloat64Slice
  /-- The call `m.Forward(t, categoricalInput)`. -/
  | ForwardNumerical (m : TorchModule) (categoricalInput : TorchTensor)
  /-- The call `m.Forward(numericalInput, t)`. -/
  | ForwardCategorical (m : TorchModule) (numericalInput : TorchTensor)
  /-- The call `m.Forward(t, t)`. -/
  | ForwardBoth (m : TorchModule)

/-- One operation on the tensor handle `t`: the handle and the engine after
it, and whether the program goes on (`false` after a panic). -/
def TorchTensor.step (M : TensorMemory) (t : TorchTensor) (N : Native) :
    TensorOp → (TorchTensor × Native) × Bool
  | .Free => (t.Free N, true)
  | .ToFloat64Slice =>
    match t.ToFloat64Slice M N with
    | (.panic, N1) => ((t, N1), false)
    | (_, N1) => ((t, N1), true)
  | .ForwardNumerical m categoricalInput => ((t, (m.Forward t categoricalInput N).2), true)
  | .ForwardCategorical m numericalInput => ((t, (m.Forward numericalInput t N).2), true)
  | .ForwardBoth m => ((t, (m.Forward t t N).2), true)

/-- A sequence of operations on the tensor handle `t`, in order, up to the
first panic. -/
def TorchTensor.run (M : TensorMemory) : List TensorOp → TorchTensor → Native →
    TorchTensor × Native
  | [], t, N => (t, N)
  | op :: ops, t, N =>
    match t.step M N op with
    | ((t1, N1), true) => TorchTensor.run M ops t1 N1
    | ((t1, N1), false) => (t1, N1)

/-- The operations a program applies to one module handle `m`. -/
inductive ModuleOp where
  /-- The call `m.Free()`. -/
  | Free
  /-- The call `m.Forward(numericalInput, categoricalInput)`. -/
  | Forward (numericalInput categoricalInput : TorchTensor)

/-- One operation on the module handle `m`. -/
def TorchModule.step (m : TorchModule) (N : Native) : ModuleOp → TorchModule × Native
  | .Free => m.Free N
  | .Forward numericalInput categoricalInput =>
    (m, (m.Forward numericalInput categoricalInput N).2)

/-- A sequence of operations on the module handle `m`, in order. -/
def TorchModule.run : List ModuleOp → TorchModule → Native → TorchModule × Native
  | [], m, N => (m, N)
  | op :: ops, m, N => TorchModule.run ops (m.step N op).1 (m.step N op).2

/-! ## `features.go` -/

/-- The local `numericalFeatures` of `prepareValidationInput`: a missing map
key yields the nil slice. -/
def numericalFeatures (featureInfo : FeatureInfo) : List String :=
  (featureInfo.FeatureNames "numerical").getD []

/-- The local `categoricalFeatures` of `prepareValidationInput`. -/
def categoricalFeatures (featureInfo : FeatureInfo) : List String :=
  (featureInfo.FeatureNames "categorical").getD []

/-- The rendering `%v` of a `[]string`. -/
def sprintStrings (xs : List String) : String :=
  "[" ++ " ".intercalate xs ++ "]"

/-- The rendering `%v` of a `[]int`. -/
def sprintInts (xs : List Nat) : String :=
  "[" ++ " ".intercalate (xs.map toString) ++ "]"

/-- The loop over the numerical features of one sample (lines 41-47), entered
at column `j` with the features still to visit. -/
def numericalLoop (env : FloatEnv) (sample : ValidationData) (numericalOffset : Nat) :
    List String → Nat → List Float32 → Except String (List Float32)
  | [], _, numericalData => .ok numericalData
  | featureName :: rest, j, numericalData =>
    match getFeatureValue sample featureName with
    | .error err =>
      .error ("failed to get numerical feature " ++ featureName ++ ": " ++ err)
    | .ok value =>
      numericalLoop env sample numericalOffset rest (j + 1)
        (numericalData.set (numericalOffset + j) (convertToFloat32 env value))

/-- The loop over the categorical features of one sample (lines 55-70),
entered at column `j`; `out` is what has been printed so far. -/
def categoricalLoop (env : FloatEnv) (featureInfo : FeatureInfo) (sample : ValidationData)
    (categoricalOffset : Nat) :
    List String → Nat → List Float32 → List Nat → List String →
      List String × Except String (List Float32 × List Nat)
  | [], _, categoricalData, categoricalIndices, out =>
    (out, .ok (categoricalData, categoricalIndices))
  | featureName :: rest, j, categoricalData, categoricalIndices, out =>
    match featureInfo.MissingValueHandling.LabelEncoders featureName with
    | none => (out, .error ("no encoder found for categorical feature: " ++ featureName))
    | some encoder =>
      match getFeatureValue sample featureName with
      | .error err =>
        (out, .error ("failed to get categorical feature " ++ featureName ++ ": " ++ err))
      | .ok value =>
        let valueStr := sprintV env value
        let r := encodeCategoricalFromEncoder valueStr encoder
        categoricalLoop env featureInfo sample categoricalOffset rest (j + 1)
          (categoricalData.set (categoricalOffset + j) (env.toFloat32 (r.1 : ℚ)))
          (categoricalIndices ++ [r.1]) (out ++ r.2)

/-- The loop over the samples (lines 37-77), entered at row `i`. -/
def sampleLoop (env : FloatEnv) (featureInfo : FeatureInfo)
    (numericalFeatures categoricalFeatures : List String) :
    List ValidationData → Nat → List Float32 → List Float32 → List String →
      List String × Except String (List Float32 × List Float32)
  | [], _, numericalData, categoricalData, out => (out, .ok (numericalData, categoricalData))
  | sample :: rest, i, numericalData, categoricalData, out =>
    match (if numericalFeatures.length > 0 then
        numericalLoop env sample (i * numericalFeatures.length) numericalFeatures 0 numericalData
      else .ok numericalData) with
    | .error err => (out, .error err)
    | .ok numericalData1 =>
      if categoricalFeatures.length > 0 then
        match categoricalLoop env featureInfo sample (i * categoricalFeatures.length)
            categoricalFeatures 0 categoricalData [] out with
        | (out1, .error err) => (out1, .error err)
        | (out1, .ok (categoricalData1, categoricalIndices)) =>
          sampleLoop env featureInfo numericalFeatures categoricalFeatures rest (i + 1)
            numericalData1 categoricalData1
            (if i < 3 then
              out1 ++ ["Sample " ++ toString (i + 1) ++ " categorical indices: " ++
                sprintInts categoricalIndices ++ "\n"]
            else out1)
      else
        sampleLoop env featureInfo numericalFeatures categoricalFeatures rest (i + 1)
          numericalData1 categoricalData out

/-- Lines 9-77 of `prepareValidationInput`: the empty-batch guard, the
allocation of the two buffers and the encoding loops. Returns what was
printed and either the error or the buffers `numericalData` and
`categoricalData`. -/
def prepareValidationData (env : FloatEnv) (validationData : List ValidationData)
    (featureInfo : FeatureInfo) :
    List String × Except String (List Float32 × List Float32) :=
  if validationData.length = 0 then ([], .error "no validation data provided")
  else
    let batchSize := validationData.length
    let numNumericalFeatures := (numericalFeatures featureInfo).length
    let numCategoricalFeatures := (categoricalFeatures featureInfo).length
    let out :=
      ["Model expects " ++ toString numNumericalFeatures ++ " numerical features: " ++
          sprintStrings (numericalFeatures featureInfo) ++ "\n",
        "Model expects " ++ toString numCategoricalFeatures ++ " categorical features: " ++
          sprintStrings (categoricalFeatures featureInfo) ++ "\n"]
    let numericalData : List Float32 :=
      if numNumericalFeatures > 0 then List.replicate (batchSize * numNumericalFeatures) 0 else []
    let categoricalData : List Float32 :=
      if numCategoricalFeatures > 0 then List.replicate (batchSize * numCategoricalFeatures) 0
      else []
    sampleLoop env featureInfo (numericalFeatures featureInfo) (categoricalFeatures featureInfo)
      validationData 0 numericalData categoricalData out

/-- What a call of `prepareValidationInput` leaves behind: the chunks printed,
the state of the native engine and the returned tensors or error. -/
structure Outcome where
  out : List String
  native : Native
  result : Except String (TorchTensor × TorchTensor)

/-- Lines 79-118 of `prepareValidationInput`: the creation of the two tensors
from the filled buffers. -/
def createTensors (batchSize numNumericalFeatures numCategoricalFeatures : Nat)
    (numericalData categoricalData : List Float32) (N : Native) :
    Except String (TorchTensor × TorchTensor) × Native :=
  let r1 : Except String TorchTensor × Native :=
    if numNumericalFeatures > 0 then
      match createTensorFromData numericalData [(batchSize : Int), (numNumericalFeatures : Int)] N
      with
      | (.error err, N1) => (.error ("failed to create numerical tensor: " ++ err), N1)
      | (.ok t, N1) => (.ok t, N1)
    else
      match createTensorFromData (List.replicate 1 0) [(batchSize : Int), 0] N with
      | (.error err, N1) => (.error ("failed to create empty numerical tensor: " ++ err), N1)
      | (.ok t, N1) => (.ok t, N1)
  match r1 with
  | (.error err, N1) => (.error err, N1)
  | (.ok numericalTensor, N1) =>
    if numCategoricalFeatures > 0 then
      match createIntTensorFromData categoricalData
          [(batchSize : Int), (numCategoricalFeatures : Int)] N1 with
      | (.error err, N2) => (.error ("failed to create categorical tensor: " ++ err), N2)
      | (.ok categoricalTensor, N2) => (.ok (numericalTensor, categoricalTensor), N2)
    else
      match createIntTensorFromData (List.replicate 1 0) [(batchSize : Int), 0] N1 with
      | (.error err, N2) => (.error ("failed to create empty categorical tensor: " ++ err), N2)
      | (.ok categoricalTensor, N2) => (.ok (numericalTensor, categoricalTensor), N2)

/-- Go `prepareValidationInput`. -/
def prepareValidationInput (env : FloatEnv) (validationData : List ValidationData)
    (featureInfo : FeatureInfo) (N : Native) : Outcome :=
  match prepareValidationData env validationData featureInfo with
  | (out, .error err) => { out := out, native := N, result := .error err }
  | (out, .ok (numericalData, categoricalData)) =>
    let r := createTensors validationData.length (numericalFeatures featureInfo).length
      (categoricalFeatures featureInfo).length numericalData categoricalData N
    { out := out, native := r.2, result := r.1 }

/-! ## Well-formedness of an input, and the end-to-end scenario -/

/-- Every declared feature, numerical or categorical, is a key of every record. -/
def FeaturesPresent (validationData : List ValidationData) (featureInfo : FeatureInfo) : Prop :=
  ∀ sample ∈ validationData,
    ∀ name ∈ numericalFeatures featureInfo ++ categoricalFeatures featureInfo,
      sample name ≠ none

/-- Every declared categorical feature is a key of the label-encoder map. -/
def EncodersPresent (featureInfo : FeatureInfo) : Prop :=
  ∀ name ∈ categoricalFeatures featureInfo,
    featureInfo.MissingValueHandling.LabelEncoders name ≠ none

/-- Native tensor creation succeeds: the oracle grants every request. -/
def AllocSucceeds (N : Native) : Prop :=
  ∀ k, N.allocOk k = true

/-- A floating-point environment in which `float32(x)` is exact; it agrees
with the machine on every value representable in single precision. -/
def exactEnv : FloatEnv :=
  { toFloat32 := fun x => x
    sscanf := fun _ => none
    formatFloat64 := fun _ => ""
    formatFloat32 := fun _ => "" }

/-- A native engine that has served no request yet and grants every one. -/
def freshNative : Native :=
  { allocOk := fun _ => true, allocs := 0, live := [], log := [] }

/-- Schema of the end-to-end scenario: numerical `a`, `b`; categorical `c`
with classes `x`, `y`. -/
def scenarioInfo : FeatureInfo :=
  { FeatureNames := fun k =>
      if k = "numerical" then some ["a", "b"]
      else if k = "categorical" then some ["c"] else none
    MissingValueHandling :=
      { LabelEncoders := fun k =>
          if k = "c" then some { Classes := ["x", "y"], Dtype := "object" } else none } }

/-- Record of the end-to-end scenario: `a = 1.0`, `b = 2.0`, `c = "y"`. -/
def scenarioRecord : ValidationData := fun k =>
  if k = "a" then some (.float64 1)
  else if k = "b" then some (.float64 2)
  else if k = "c" then some (.string "y") else none

/-- The scenario record with a category `zz` that the encoder does not know. -/
def unknownRecord : ValidationData := fun k =>
  if k = "c" then some (.string "zz") else scenarioRecord k

/-- A schema that declares no feature at all. -/
def emptyInfo : FeatureInfo :=
  { FeatureNames := fun _ => none
    MissingValueHandling := { LabelEncoders := fun _ => none } }

/-! ## IEEE 754 binary64 arithmetic, for the scoring loop of `main`

The scoring loop computes with `float64` values, so its data are modelled with
their rounding: every arithmetic operation yields the exact result rounded to
the nearest binary64 value, ties to even, with gradual underflow and overflow
to an infinity. The two zeros are identified: the loop never divides by a
negative zero, and comparison, `math.Abs` and the sums treat both alike. -/

/-- A `float64` datum of the scoring loop: a finite value, as the rational it
denotes, an infinity, or a NaN. -/
inductive Binary64 where
  | finite (value : ℚ)
  | posInf
  | negInf
  | nan
  deriving DecidableEq

/-- The power `2 ^ k` for an integer exponent. -/
def pow2 (k : Int) : ℚ :=
  if 0 ≤ k then ((2 ^ k.toNat : Nat) : ℚ) else 1 / ((2 ^ (-k).toNat : Nat) : ℚ)

/-- The integer part of the binary logarithm of `n`, by at most `fuel`
halvings; `fuel = n` is always enough. -/
def log2Fuel : Nat → Nat → Nat
  | 0, _ => 0
  | fuel + 1, n => if n < 2 then 0 else log2Fuel fuel (n / 2) + 1

/-- The integer part of the binary logarithm of a positive rational: the `k`
with `2 ^ k ≤ a < 2 ^ (k + 1)`. -/
def floorLog2 (a : ℚ) : Int :=
  let k : Int :=
    (log2Fuel a.num.natAbs a.num.natAbs : Int) - (log2Fuel a.den a.den : Int)
  if pow2 k ≤ a then k else k - 1

/-- The integer nearest to a non-negative rational, the even one on a tie. -/
def roundHalfEven (y : ℚ) : Nat :=
  let f : Nat := (y.num / (y.den : Int)).toNat
  let rest : ℚ := y - (f : ℚ)
  if rest < 1 / 2 then f
  else if 1 / 2 < rest then f + 1
  else if f % 2 = 0 then f else f + 1

/-- Rounding of an exact result to binary64: 53 significant bits, exponents
from -1022 to 1023, nearest value with ties to even; a magnitude that rounds
to `2 ^ 1024` or more overflows to the infinity of its sign. -/
def round64 (x : ℚ) : Binary64 :=
  if x = 0 then .finite 0
  else
    let a : ℚ := |x|
    let e : Int := max (floorLog2 a) (-1022)
    let quantum : ℚ := pow2 (e - 52)
    let r : ℚ := (roundHalfEven (a / quantum) : ℚ) * quantum
    if pow2 1024 ≤ r then (if x < 0 then .negInf else .posInf)
    else .finite (if x < 0 then -r else r)

/-- Negation. -/
def Binary64.neg : Binary64 → Binary64
  | .finite x => .finite (-x)
  | .posInf => .negInf
  | .negInf => .posInf
  | .nan => .nan

/-- The sum `a + b`. -/
def Binary64.add : Binary64 → Binary64 → Binary64
  | .nan, _ => .nan
  | _, .nan => .nan
  | .posInf, .negInf => .nan
  | .negInf, .posInf => .nan
  | .posInf, _ => .posInf
  | .negInf, _ => .negInf
  | _, .posInf => .posInf
  | _, .negInf => .negInf
  | .finite x, .finite y => round64 (x + y)

/-- The difference `a - b`. -/
def Binary64.sub (a b : Binary64) : Binary64 :=
  a.add b.neg

/-- The infinity with the sign of `x` times the sign of a positive
(`negative = false`) or negative infinity; NaN for `x = 0`. -/
def Binary64.infTimes (x : ℚ) (negative : Bool) : Binary64 :=
  if x = 0 then .nan
  else if (decide (0 < x)) = negative then .negInf else .posInf

/-- The product `a * b`. -/
def Binary64.mul : Binary64 → Binary64 → Binary64
  | .nan, _ => .nan
  | _, .nan => .nan
  | .finite x, .finite y => round64 (x * y)
  | .finite x, .posInf => Binary64.infTimes x false
  | .finite x, .negInf => Binary64.infTimes x true
  | .posInf, .finite y => Binary64.infTimes y false
  | .negInf, .finite y => Binary64.infTimes y true
  | .posInf, .posInf => .posInf
  | .posInf, .negInf => .negInf
  | .negInf, .posInf => .negInf
  | .negInf, .negInf => .posInf

/-- The quotient `a / b`; a zero divisor is the positive zero. -/
def Binary64.div : Binary64 → Binary64 → Binary64
  | .nan, _ => .nan
  | _, .nan => .nan
  | .finite x, .finite y =>
    if y = 0 then (if x = 0 then .nan else if 0 < x then .posInf else .negInf)
    else round64 (x / y)
  | .finite _, .posInf => .finite 0
  | .finite _, .negInf => .finite 0
  | .posInf, .finite y => if 0 ≤ y then .posInf else .negInf
  | .negInf, .finite y => if 0 ≤ y then .negInf else .posInf
  | .posInf, .posInf => .nan
  | .posInf, .negInf => .nan
  | .negInf, .posInf => .nan
  | .negInf, .negInf => .nan

/-- The fused multiply-add `x * y + z`, rounded once. -/
def Binary64.fma (x y z : Binary64) : Binary64 :=
  match x, y, z with
  | .finite a, .finite b, .finite c => round64 (a * b + c)
  | .finite _, .finite _, z => z
  | x, y, z => (x.mul y).add z

/-- Go `math.Abs`. -/
def Binary64.abs : Binary64 → Binary64
  | .finite x => .finite |x|
  | .posInf => .posInf
  | .negInf => .posInf
  | .nan => .nan

/-- The comparison `a == b`. -/
def Binary64.eq : Binary64 → Binary64 → Bool
  | .finite x, .finite y => decide (x = y)
  | .posInf, .posInf => true
  | .negInf, .negInf => true
  | _, _ => false

/-- The comparison `a < b`. -/
def Binary64.lt : Binary64 → Binary64 → Bool
  | .finite x, .finite y => decide (x < y)
  | .negInf, .finite _ => true
  | .negInf, .posInf => true
  | .finite _, .posInf => true
  | _, _ => false

/-- The conversion `float64(n)` of an integer. -/
def Binary64.ofInt (n : Int) : Binary64 :=
  round64 (n : ℚ)

/-! ## The scoring loop and the summary of `main` (`main.go`, lines 84-156) -/

/-- The values of the local `matchStatus`. -/
inductive MatchStatus where
  | EXACT
  | CLOSE
  | DIFF
  deriving DecidableEq, Repr

/-- The local `tolerance` of `main`: the constant `1e-6` as a `float64`. -/
def tolerance : Binary64 := round64 (1 / 1000000)

/-- The accumulators of the scoring loop. -/
structure Score where
  totalSquaredError : Binary64
  totalAbsError : Binary64
  exactMatches : Int
  closeMatches : Int
  deriving DecidableEq

/-- The accumulators before the loop: Go zero values. -/
def Score.zero : Score :=
  { totalSquaredError := .finite 0, totalAbsError := .finite 0,
    exactMatches := 0, closeMatches := 0 }

/-- The body of the scoring loop for one pair (lines 91-110): the match status
it gives the pair and the updated accumulators. The Go specification lets a
compiler fuse `error * error` and the addition to `totalSquaredError` into one
operation with a single rounding; `fused` tells whether it does. -/
def scorePair (fused : Bool) (tolerance predicted expected : Binary64) (st : Score) :
    MatchStatus × Score :=
  let error := predicted.sub expected
  let absError := error.abs
  let squaredError := error.mul error
  let st1 : Score :=
    { st with
      totalSquaredError :=
        if fused then Binary64.fma error error st.totalSquaredError
        else st.totalSquaredError.add squaredError
      totalAbsError := st.totalAbsError.add absError }
  if absError.eq (.finite 0) then
    (.EXACT, { st1 with exactMatches := st1.exactMatches + 1 })
  else if absError.lt tolerance then
    (.CLOSE, { st1 with closeMatches := st1.closeMatches + 1 })
  else
    (.DIFF, st1)

/-- The scoring loop `for i := 0; i < len(predictions) && i < len(expected); i++`
(lines 90-125), entered at index `i` with the elements of both slices from
index `i` on. `numData` is `len(torchData.ValidationData)`: the row printed for
pair `i` reads `torchData.ValidationData[i]`, which panics when `i` is out of
range, and the run then ends without a summary (`none`). `rows` collects the
match status printed on each row. -/
def scoreLoop (fused : Bool) (tolerance : Binary64) (numData : Nat) :
    List Binary64 → List Binary64 → Nat → Score → List MatchStatus →
      Option (Score × List MatchStatus)
  | predicted :: predictions, expected :: expecteds, i, st, rows =>
    if i < numData then
      scoreLoop fused tolerance numData predictions expecteds (i + 1)
        (scorePair fused tolerance predicted expected st).2
        (rows ++ [(scorePair fused tolerance predicted expected st).1])
    else none
  | _, _, _, st, rows => some (st, rows)

/-- The final validation check (lines 145-156). -/
inductive Verdict where
  /-- "SUCCESS: All predictions match exactly". -/
  | SUCCESS
  /-- "CLOSE: All predictions are very close". -/
  | CLOSE
  /-- "WARNING: n predictions differ significantly", with the `n` shown. -/
  | WARNING (differ : Int)
  deriving DecidableEq, Repr

/-- What `main` prints after the loop (lines 127-156), and the rows before it.
The root mean squared error, a `math.Sqrt`, is left out. -/
structure Report where
  rows : List MatchStatus
  mse : Binary64
  mae : Binary64
  numSamples : Binary64
  exactMatches : Int
  closeMatches : Int
  differentValues : Int
  exactPercent : Binary64
  closePercent : Binary64
  differentPercent : Binary64
  verdict : Verdict
  deriving DecidableEq

/-- Lines 84-156 of `main`: the scoring loop over `predictions` and
`torchData.ValidationPredictions`, then the metrics, the summary and the final
check, all of which use `len(predictions)` as the number of samples. -/
def validationReport (fused : Bool) (tolerance : Binary64)
    (predictions expected : List Binary64) (numData : Nat) : Option Report :=
  match scoreLoop fused tolerance numData predictions expected 0 Score.zero [] with
  | none => none
  | some (st, rows) =>
    let numSamples : Binary64 := Binary64.ofInt (predictions.length : Int)
    let different : Int := (predictions.length : Int) - st.exactMatches - st.closeMatches
    some
      { rows := rows
        mse := st.totalSquaredError.div numSamples
        mae := st.totalAbsError.div numSamples
        numSamples := numSamples
        exactMatches := st.exactMatches
        closeMatches := st.closeMatches
        differentValues := different
        exactPercent :=
          ((Binary64.ofInt st.exactMatches).div
            (Binary64.ofInt (predictions.length : Int))).mul (.finite 100)
        closePercent :=
          ((Binary64.ofInt st.closeMatches).div
            (Binary64.ofInt (predictions.length : Int))).mul (.finite 100)
        differentPercent :=
          ((Binary64.ofInt different).div
            (Binary64.ofInt (predictions.length : Int))).mul (.finite 100)
        verdict :=
          if st.exactMatches = (predictions.length : Int) then .SUCCESS
          else if st.exactMatches + st.closeMatches = (predictions.length : Int) then .CLOSE
          else .WARNING different }

/-- A native engine that grants the first allocation request and refuses
every later one. -/
def secondAllocFails : Native :=
  { allocOk := fun k => decide (k = 0), allocs := 0, live := [], log := [] }

/-- A tensor memory in which every tensor holds the two floats 1 and 2. -/
def twoFloats : TensorMemory :=
  { numel := fun _ => 2, data := fun _ => some (fun i => if i = 0 then 1 else 2) }

/-- A native engine that has created one tensor, at pointer 1, and one
module, at pointer 2. -/
def oneTensorOneModule : Native :=
  { allocOk := fun _ => true, allocs := 2, live := [1], log := [] }

/-! ## Lemmas on the encoding loops -/

theorem findClass_some (value : String) :
    ∀ (classes : List String) (i k : Nat), findClass value classes i = some k →
      i ≤ k ∧ classes[k - i]? = some value ∧ ∀ m, m < k - i → classes[m]? ≠ some value := by
  intro classes
  induction classes with
  | nil => intro i k h; simp [findClass] at h
  | cons cls rest ih =>
    intro i k h
    unfold findClass at h
    by_cases hc : cls = value
    · simp [hc] at h
      subst h
      simp [hc]
    · simp [hc] at h
      obtain ⟨h1, h2, h3⟩ := ih (i + 1) k h
      refine ⟨by omega, ?_, ?_⟩
      · have : k - i = (k - (i + 1)) + 1 := by omega
        rw [this]; simpa using h2
      · intro m hm
        cases m with
        | zero => simpa using hc
        | succ m => simpa using h3 m (by omega)

theorem findClass_none (value : String) :
    ∀ (classes : List String) (i : Nat), findClass value classes i = none ↔ value ∉ classes := by
  intro classes
  induction classes with
  | nil => intro i; simp [findClass]
  | cons cls rest ih =>
    intro i
    unfold findClass
    by_cases hc : cls = value
    · simp [hc]
    · simp only [hc, if_false, ih (i + 1), List.mem_cons, not_or]
      exact ⟨fun h => ⟨fun e => hc e.symm, h⟩, fun h => h.2⟩

theorem numericalLoop_spec (env : FloatEnv) (sample : ValidationData) (off : Nat) :
    ∀ (feats : List String) (j : Nat) (data : List Float32),
      (∀ name ∈ feats, ∃ v, sample name = some v) →
      ∃ data1, numericalLoop env sample off feats j data = .ok data1 ∧
        data1.length = data.length ∧
        (∀ k, k < off + j → data1[k]? = data[k]?) ∧
        (∀ k, off + j + feats.length ≤ k → data1[k]? = data[k]?) ∧
        (∀ c name, feats[c]? = some name → off + j + c < data.length →
          ∃ v, sample name = some v ∧ data1[off + j + c]? = some (convertToFloat32 env v)) := by
  intro feats
  induction feats with
  | nil =>
    intro j data _
    exact ⟨data, rfl, rfl, fun _ _ => rfl, fun _ _ => rfl, by simp⟩
  | cons name rest ih =>
    intro j data hp
    obtain ⟨v, hv⟩ := hp name (by simp)
    obtain ⟨data1, h1, h2, h3, h4, h5⟩ :=
      ih (j + 1) (data.set (off + j) (convertToFloat32 env v))
        (fun n hn => hp n (by simp [hn]))
    refine ⟨data1, ?_, ?_, ?_, ?_, ?_⟩
    · simp [numericalLoop, getFeatureValue, hv, h1]
    · simpa using h2
    · intro k hk
      rw [h3 k (by omega), List.getElem?_set_ne (by omega)]
    · intro k hk
      simp only [List.length_cons] at hk
      rw [h4 k (by omega), List.getElem?_set_ne (by omega)]
    · intro c nm hc hlt
      cases c with
      | zero =>
        simp at hc
        subst hc
        refine ⟨v, hv, ?_⟩
        have hlt2 : off + j < data.length := by omega
        show data1[off + j]? = _
        rw [h3 (off + j) (by omega)]
        simp [List.getElem?_set_self hlt2]
      | succ c =>
        simp at hc
        have := h5 c nm hc (by simpa using (by omega : off + (j + 1) + c < data.length))
        have e : off + (j + 1) + c = off + j + (c + 1) := by omega
        rw [e] at this
        exact this

theorem numericalLoop_error (env : FloatEnv) (sample : ValidationData) (off : Nat) :
    ∀ (feats : List String) (j : Nat) (data : List Float32),
      (∃ name ∈ feats, sample name = none) →
      ∃ err, numericalLoop env sample off feats j data = .error err := by
  intro feats
  induction feats with
  | nil => intro j data h; simp at h
  | cons name rest ih =>
    intro j data h
    cases hv : sample name with
    | none => exact ⟨_, by simp only [numericalLoop, getFeatureValue, hv]; rfl⟩
    | some v =>
      obtain ⟨nm, hm, hn⟩ := h
      have hm2 : nm ∈ rest := by
        rcases List.mem_cons.mp hm with e | e
        · subst e; rw [hv] at hn; cases hn
        · exact e
      obtain ⟨err, he⟩ := ih (j + 1) (data.set (off + j) (convertToFloat32 env v)) ⟨nm, hm2, hn⟩
      exact ⟨err, by simp [numericalLoop, getFeatureValue, hv, he]⟩

theorem categoricalLoop_spec (env : FloatEnv) (featureInfo : FeatureInfo)
    (sample : ValidationData) (off : Nat) :
    ∀ (feats : List String) (j : Nat) (data : List Float32) (idx : List Nat) (out : List String),
      (∀ name ∈ feats, ∃ v, sample name = some v) →
      (∀ name ∈ feats, ∃ enc, featureInfo.MissingValueHandling.LabelEncoders name = some enc) →
      ∃ data1 idx1 out1,
        categoricalLoop env featureInfo sample off feats j data idx out =
          (out1, .ok (data1, idx1)) ∧
        data1.length = data.length ∧
        (∀ k, k < off + j → data1[k]? = data[k]?) ∧
        (∀ k, off + j + feats.length ≤ k → data1[k]? = data[k]?) ∧
        (∀ x ∈ out, x ∈ out1) ∧
        (∀ c name, feats[c]? = some name → off + j + c < data.length →
          ∃ v enc, sample name = some v ∧
            featureInfo.MissingValueHandling.LabelEncoders name = some enc ∧
            data1[off + j + c]? =
              some (env.toFloat32 ((encodeCategoricalFromEncoder (sprintV env v) enc).1 : ℚ)) ∧
            ∀ x ∈ (encodeCategoricalFromEncoder (sprintV env v) enc).2, x ∈ out1) := by
  intro feats
  induction feats with
  | nil =>
    intro j data idx out _ _
    exact ⟨data, idx, out, rfl, rfl, fun _ _ => rfl, fun _ _ => rfl, fun _ h => h, by simp⟩
  | cons name rest ih =>
    intro j data idx out hp he
    obtain ⟨v, hv⟩ := hp name (by simp)
    obtain ⟨enc, henc⟩ := he name (by simp)
    obtain ⟨data1, idx1, out1, h1, h2, h3, h4, ho, h5⟩ :=
      ih (j + 1)
        (data.set (off + j)
          (env.toFloat32 ((encodeCategoricalFromEncoder (sprintV env v) enc).1 : ℚ)))
        (idx ++ [(encodeCategoricalFromEncoder (sprintV env v) enc).1])
        (out ++ (encodeCategoricalFromEncoder (sprintV env v) enc).2)
        (fun n hn => hp n (by simp [hn])) (fun n hn => he n (by simp [hn]))
    refine ⟨data1, idx1, out1, ?_, ?_, ?_, ?_, ?_, ?_⟩
    · simp [categoricalLoop, getFeatureValue, hv, henc, h1]
    · simpa using h2
    · intro k hk
      rw [h3 k (by omega), List.getElem?_set_ne (by omega)]
    · intro k hk
      simp only [List.length_cons] at hk
      rw [h4 k (by omega), List.getElem?_set_ne (by omega)]
    · intro x hx
      exact ho x (by simp [hx])
    · intro c nm hc hlt
      cases c with
      | zero =>
        simp at hc
        subst hc
        refine ⟨v, enc, hv, henc, ?_, ?_⟩
        · have hlt2 : off + j < data.length := by omega
          show data1[off + j]? = _
          rw [h3 (off + j) (by omega)]
          simp [List.getElem?_set_self hlt2]
        · intro x hx
          exact ho x (by simp [hx])
      | succ c =>
        simp at hc
        have := h5 c nm hc (by simpa using (by omega : off + (j + 1) + c < data.length))
        have e : off + (j + 1) + c = off + j + (c + 1) := by omega
        rw [e] at this
        exact this

theorem categoricalLoop_error (env : FloatEnv) (featureInfo : FeatureInfo)
    (sample : ValidationData) (off : Nat) :
    ∀ (feats : List String) (j : Nat) (data : List Float32) (idx : List Nat) (out : List String),
      (∃ name ∈ feats, sample name = none ∨
        featureInfo.MissingValueHandling.LabelEncoders name = none) →
      ∃ out1 err,
        categoricalLoop env featureInfo sample off feats j data idx out = (out1, .error err) := by
  intro feats
  induction feats with
  | nil => intro j data idx out h; simp at h
  | cons name rest ih =>
    intro j data idx out h
    cases henc : featureInfo.MissingValueHandling.LabelEncoders name with
    | none => exact ⟨_, _, by simp only [categoricalLoop, henc]; rfl⟩
    | some enc =>
      cases hv : sample name with
      | none => exact ⟨_, _, by simp only [categoricalLoop, getFeatureValue, hv, henc]; rfl⟩
      | some v =>
        obtain ⟨nm, hm, hn⟩ := h
        have hm2 : nm ∈ rest := by
          rcases List.mem_cons.mp hm with e | e
          · subst e
            rw [hv, henc] at hn
            simp at hn
          · exact e
        obtain ⟨out1, err, h1⟩ := ih (j + 1)
          (data.set (off + j)
            (env.toFloat32 ((encodeCategoricalFromEncoder (sprintV env v) enc).1 : ℚ)))
          (idx ++ [(encodeCategoricalFromEncoder (sprintV env v) enc).1])
          (out ++ (encodeCategoricalFromEncoder (sprintV env v) enc).2) ⟨nm, hm2, hn⟩
        exact ⟨out1, err, by simp [categoricalLoop, getFeatureValue, hv, henc, h1]⟩

theorem sampleLoop_spec (env : FloatEnv) (featureInfo : FeatureInfo) (nf cf : List String) :
    ∀ (samples : List ValidationData) (i : Nat) (nd cd : List Float32) (out : List String),
      (∀ s ∈ samples, ∀ name ∈ nf, ∃ v, s name = some v) →
      (∀ s ∈ samples, ∀ name ∈ cf, ∃ v, s name = some v) →
      (∀ name ∈ cf, ∃ enc, featureInfo.MissingValueHandling.LabelEncoders name = some enc) →
      (0 < nf.length → (i + samples.length) * nf.length ≤ nd.length) →
      (0 < cf.length → (i + samples.length) * cf.length ≤ cd.length) →
      ∃ nd1 cd1 out1,
        sampleLoop env featureInfo nf cf samples i nd cd out = (out1, .ok (nd1, cd1)) ∧
        nd1.length = nd.length ∧ cd1.length = cd.length ∧
        (∀ k, k < i * nf.length → nd1[k]? = nd[k]?) ∧
        (∀ k, k < i * cf.length → cd1[k]? = cd[k]?) ∧
        (∀ x ∈ out, x ∈ out1) ∧
        (∀ r s, samples[r]? = some s → ∀ c name, nf[c]? = some name →
          ∃ v, s name = some v ∧
            nd1[(i + r) * nf.length + c]? = some (convertToFloat32 env v)) ∧
        (∀ r s, samples[r]? = some s → ∀ c name, cf[c]? = some name →
          ∃ v enc, s name = some v ∧
            featureInfo.MissingValueHandling.LabelEncoders name = some enc ∧
            cd1[(i + r) * cf.length + c]? =
              some (env.toFloat32 ((encodeCategoricalFromEncoder (sprintV env v) enc).1 : ℚ)) ∧
            ∀ x ∈ (encodeCategoricalFromEncoder (sprintV env v) enc).2, x ∈ out1) := by
  intro samples
  induction samples with
  | nil =>
    intro i nd cd out _ _ _ _ _
    exact ⟨nd, cd, out, rfl, rfl, rfl, fun _ _ => rfl, fun _ _ => rfl, fun _ h => h,
      by simp, by simp⟩
  | cons s rest ih =>
    intro i nd cd out hn hc he hbn hbc
    simp only [List.length_cons] at hbn hbc
    -- the numerical row
    obtain ⟨nda, hna, hnl, hnf1, hnf2, hnrow⟩ :
        ∃ nda, (if nf.length > 0 then numericalLoop env s (i * nf.length) nf 0 nd
            else .ok nd) = .ok nda ∧ nda.length = nd.length ∧
          (∀ k, k < i * nf.length → nda[k]? = nd[k]?) ∧
          (∀ k, i * nf.length + nf.length ≤ k → nda[k]? = nd[k]?) ∧
          (∀ c name, nf[c]? = some name →
            ∃ v, s name = some v ∧ nda[i * nf.length + c]? = some (convertToFloat32 env v)) := by
      by_cases hz : nf.length > 0
      · obtain ⟨d, h1, h2, h3, h4, h5⟩ :=
          numericalLoop_spec env s (i * nf.length) nf 0 nd (hn s (by simp))
        refine ⟨d, by simp [hz, h1], h2, fun k hk => h3 k (by omega),
          fun k hk => h4 k (by omega), ?_⟩
        intro c name hcn
        have hcl : c < nf.length := (List.getElem?_eq_some.mp hcn).1
        have hb := hbn hz
        have hm : (i + (rest.length + 1)) * nf.length =
            i * nf.length + nf.length + rest.length * nf.length := by ring
        exact h5 c name hcn (by omega)
      · have hz0 : nf = [] := by
          cases nf with
          | nil => rfl
          | cons a b => simp at hz
        subst hz0
        exact ⟨nd, by simp, rfl, fun _ _ => rfl, fun _ _ => rfl, by simp⟩
    by_cases hzc : cf.length > 0
    · obtain ⟨cda, idx, outa, hca, hcl, hcf1, hcf2, hco, hcrow⟩ :=
        categoricalLoop_spec env featureInfo s (i * cf.length) cf 0 cd [] out (hc s (by simp)) he
      obtain ⟨nd1, cd1, out1, h1, h2, h3, h4, h5, h6, h7, h8⟩ :=
        ih (i + 1) nda cda
          (if i < 3 then
            outa ++ ["Sample " ++ toString (i + 1) ++ " categorical indices: " ++
              sprintInts idx ++ "\n"]
          else outa)
          (fun t ht => hn t (by simp [ht])) (fun t ht => hc t (by simp [ht])) he
          (fun h => by rw [hnl]; have := hbn h; rwa [show i + 1 + rest.length = i + (rest.length + 1) by omega])
          (fun h => by rw [hcl]; have := hbc h; rwa [show i + 1 + rest.length = i + (rest.length + 1) by omega])
      have hout : ∀ x ∈ outa, x ∈ out1 := by
        intro x hx
        apply h6
        split
        · simp [hx]
        · exact hx
      have hsn : (i + 1) * nf.length = i * nf.length + nf.length := by ring
      have hsc : (i + 1) * cf.length = i * cf.length + cf.length := by ring
      refine ⟨nd1, cd1, out1, ?_, by rw [h2, hnl], by rw [h3, hcl], ?_, ?_, ?_, ?_, ?_⟩
      · simp only [sampleLoop, hna, hzc, if_true, hca, h1]
      · intro k hk
        rw [h4 k (by omega), hnf1 k hk]
      · intro k hk
        rw [h5 k (by omega), hcf1 k (by omega)]
      · intro x hx
        exact hout x (hco x hx)
      · intro r t hr c name hcn
        have hcl2 : c < nf.length := (List.getElem?_eq_some.mp hcn).1
        cases r with
        | zero =>
          simp at hr
          subst hr
          obtain ⟨v, hv, hval⟩ := hnrow c name hcn
          refine ⟨v, hv, ?_⟩
          simp only [Nat.add_zero]
          rw [h4 _ (by omega)]
          exact hval
        | succ r =>
          simp at hr
          have := h7 r t hr c name hcn
          rwa [show i + 1 + r = i + (r + 1) by omega] at this
      · intro r t hr c name hcn
        have hcl2 : c < cf.length := (List.getElem?_eq_some.mp hcn).1
        cases r with
        | zero =>
          simp at hr
          subst hr
          have hb := hbc hzc
          have hm : (i + (rest.length + 1)) * cf.length =
              i * cf.length + cf.length + rest.length * cf.length := by ring
          obtain ⟨v, enc, hv, henc, hval, hw⟩ := hcrow c name hcn (by omega)
          refine ⟨v, enc, hv, henc, ?_, fun x hx => hout x (hw x hx)⟩
          simp only [Nat.add_zero]
          rw [h5 _ (by omega)]
          simpa using hval
        | succ r =>
          simp at hr
          have := h8 r t hr c name hcn
          rwa [show i + 1 + r = i + (r + 1) by omega] at this
    · have hz0 : cf = [] := by
        cases cf with
        | nil => rfl
        | cons a b => simp at hzc
      subst hz0
      obtain ⟨nd1, cd1, out1, h1, h2, h3, h4, h5, h6, h7, h8⟩ :=
        ih (i + 1) nda cd out
          (fun t ht => hn t (by simp [ht])) (fun t ht => hc t (by simp [ht])) he
          (fun h => by rw [hnl]; have := hbn h; rwa [show i + 1 + rest.length = i + (rest.length + 1) by omega])
          (fun h => by simp at h)
      have hsn : (i + 1) * nf.length = i * nf.length + nf.length := by ring
      refine ⟨nd1, cd1, out1, ?_, by rw [h2, hnl], h3, ?_, ?_, h6, ?_, by simp⟩
      · simp only [sampleLoop, hna, List.length_nil, gt_iff_lt, lt_self_iff_false, if_false, h1]
      · intro k hk
        rw [h4 k (by omega), hnf1 k hk]
      · intro k hk
        simp at hk
      · intro r t hr c name hcn
        have hcl2 : c < nf.length := (List.getElem?_eq_some.mp hcn).1
        cases r with
        | zero =>
          simp at hr
          subst hr
          obtain ⟨v, hv, hval⟩ := hnrow c name hcn
          refine ⟨v, hv, ?_⟩
          simp only [Nat.add_zero]
          rw [h4 _ (by omega)]
          exact hval
        | succ r =>
          simp at hr
          have := h7 r t hr c name hcn
          rwa [show i + 1 + r = i + (r + 1) by omega] at this

theorem sampleLoop_error (env : FloatEnv) (featureInfo : FeatureInfo) (nf cf : List String) :
    ∀ (samples : List ValidationData) (i : Nat) (nd cd : List Float32) (out : List String),
      (∃ s ∈ samples, (∃ name ∈ nf, s name = none) ∨
        (∃ name ∈ cf, s name = none ∨
          featureInfo.MissingValueHandling.LabelEncoders name = none)) →
      ∃ out1 err, sampleLoop env featureInfo nf cf samples i nd cd out = (out1, .error err) := by
  intro samples
  induction samples with
  | nil => intro i nd cd out h; simp at h
  | cons s rest ih =>
    intro i nd cd out h
    by_cases h1 : ∃ name ∈ nf, s name = none
    · have hz : nf.length > 0 := by
        obtain ⟨name, hm, _⟩ := h1
        exact List.length_pos_of_mem hm
      obtain ⟨err, he⟩ := numericalLoop_error env s (i * nf.length) nf 0 nd h1
      exact ⟨out, err, by simp only [sampleLoop, hz, if_true, he]⟩
    · have hp : ∀ name ∈ nf, ∃ v, s name = some v := by
        intro name hm
        cases hv : s name with
        | none => exact absurd ⟨name, hm, hv⟩ h1
        | some v => exact ⟨v, rfl⟩
      obtain ⟨nda, hna⟩ : ∃ nda, (if nf.length > 0 then
          numericalLoop env s (i * nf.length) nf 0 nd else .ok nd) = .ok nda := by
        by_cases hz : nf.length > 0
        · obtain ⟨d, hd, _⟩ := numericalLoop_spec env s (i * nf.length) nf 0 nd hp
          exact ⟨d, by simp [hz, hd]⟩
        · exact ⟨nd, by simp [hz]⟩
      by_cases h2 : ∃ name ∈ cf, s name = none ∨
          featureInfo.MissingValueHandling.LabelEncoders name = none
      · have hz : cf.length > 0 := by
          obtain ⟨name, hm, _⟩ := h2
          exact List.length_pos_of_mem hm
        obtain ⟨out1, err, he⟩ :=
          categoricalLoop_error env featureInfo s (i * cf.length) cf 0 cd [] out h2
        exact ⟨out1, err, by simp only [sampleLoop, hna, hz, if_true, he]⟩
      · have hrest : ∃ t ∈ rest, (∃ name ∈ nf, t name = none) ∨
            (∃ name ∈ cf, t name = none ∨
              featureInfo.MissingValueHandling.LabelEncoders name = none) := by
          obtain ⟨t, ht, hbad⟩ := h
          rcases List.mem_cons.mp ht with e | e
          · subst e
            rcases hbad with hb | hb
            · exact absurd hb h1
            · exact absurd hb h2
          · exact ⟨t, e, hbad⟩
        by_cases hz : cf.length > 0
        · have hpc : ∀ name ∈ cf, ∃ v, s name = some v := by
            intro name hm
            cases hv : s name with
            | none => exact absurd ⟨name, hm, Or.inl hv⟩ h2
            | some v => exact ⟨v, rfl⟩
          have hec : ∀ name ∈ cf,
              ∃ enc, featureInfo.MissingValueHandling.LabelEncoders name = some enc := by
            intro name hm
            cases hv : featureInfo.MissingValueHandling.LabelEncoders name with
            | none => exact absurd ⟨name, hm, Or.inr hv⟩ h2
            | some enc => exact ⟨enc, rfl⟩
          obtain ⟨cda, idx, outa, hca, _⟩ :=
            categoricalLoop_spec env featureInfo s (i * cf.length) cf 0 cd [] out hpc hec
          obtain ⟨out1, err, he⟩ := ih (i + 1) nda cda
            (if i < 3 then
              outa ++ ["Sample " ++ toString (i + 1) ++ " categorical indices: " ++
                sprintInts idx ++ "\n"]
            else outa) hrest
          exact ⟨out1, err, by simp only [sampleLoop, hna, hz, if_true, hca, he]⟩
        · obtain ⟨out1, err, he⟩ := ih (i + 1) nda cd out hrest
          exact ⟨out1, err, by simp only [sampleLoop, hna, hz, if_false, he]⟩

theorem featuresPresent_iff (validationData : List ValidationData) (featureInfo : FeatureInfo) :
    FeaturesPresent validationData featureInfo ↔
      (∀ s ∈ validationData, ∀ name ∈ numericalFeatures featureInfo, ∃ v, s name = some v) ∧
      (∀ s ∈ validationData, ∀ name ∈ categoricalFeatures featureInfo, ∃ v, s name = some v) := by
  unfold FeaturesPresent
  constructor
  · intro h
    exact ⟨fun s hs name hn => Option.ne_none_iff_exists'.mp (h s hs name (by simp [hn])),
      fun s hs name hn => Option.ne_none_iff_exists'.mp (h s hs name (by simp [hn]))⟩
  · rintro ⟨h1, h2⟩ s hs name hn
    rcases List.mem_append.mp hn with e | e
    · exact Option.ne_none_iff_exists'.mpr (h1 s hs name e)
    · exact Option.ne_none_iff_exists'.mpr (h2 s hs name e)

theorem encodersPresent_iff (featureInfo : FeatureInfo) :
    EncodersPresent featureInfo ↔
      ∀ name ∈ categoricalFeatures featureInfo,
        ∃ enc, featureInfo.MissingValueHandling.LabelEncoders name = some enc := by
  unfold EncodersPresent
  exact ⟨fun h name hn => Option.ne_none_iff_exists'.mp (h name hn),
    fun h name hn => Option.ne_none_iff_exists'.mpr (h name hn)⟩

theorem prepareValidationData_spec (env : FloatEnv) (validationData : List ValidationData)
    (featureInfo : FeatureInfo) (hne : validationData ≠ [])
    (hf : FeaturesPresent validationData featureInfo) (he : EncodersPresent featureInfo) :
    ∃ out numericalData categoricalData,
      prepareValidationData env validationData featureInfo =
        (out, .ok (numericalData, categoricalData)) ∧
      numericalData.length = validationData.length * (numericalFeatures featureInfo).length ∧
      categoricalData.length =
        validationData.length * (categoricalFeatures featureInfo).length ∧
      (∀ i sample, validationData[i]? = some sample →
        ∀ j name, (numericalFeatures featureInfo)[j]? = some name →
          ∃ value, sample name = some value ∧
            numericalData[i * (numericalFeatures featureInfo).length + j]? =
              some (convertToFloat32 env value)) ∧
      (∀ i sample, validationData[i]? = some sample →
        ∀ j name, (categoricalFeatures featureInfo)[j]? = some name →
          ∃ value encoder, sample name = some value ∧
            featureInfo.MissingValueHandling.LabelEncoders name = some encoder ∧
            categoricalData[i * (categoricalFeatures featureInfo).length + j]? =
              some (env.toFloat32
                ((encodeCategoricalFromEncoder (sprintV env value) encoder).1 : ℚ)) ∧
            ∀ x ∈ (encodeCategoricalFromEncoder (sprintV env value) encoder).2, x ∈ out) := by
  obtain ⟨hn, hc⟩ := (featuresPresent_iff validationData featureInfo).mp hf
  have he2 := (encodersPresent_iff featureInfo).mp he
  have hlen : validationData.length ≠ 0 := by
    cases validationData with
    | nil => exact absurd rfl hne
    | cons a b => simp
  obtain ⟨nd1, cd1, out1, h1, h2, h3, _, _, _, h7, h8⟩ :=
    sampleLoop_spec env featureInfo (numericalFeatures featureInfo)
      (categoricalFeatures featureInfo) validationData 0
      (if (numericalFeatures featureInfo).length > 0 then
        List.replicate (validationData.length * (numericalFeatures featureInfo).length) 0
      else [])
      (if (categoricalFeatures featureInfo).length > 0 then
        List.replicate (validationData.length * (categoricalFeatures featureInfo).length) 0
      else [])
      ["Model expects " ++ toString (numericalFeatures featureInfo).length ++
          " numerical features: " ++ sprintStrings (numericalFeatures featureInfo) ++ "\n",
        "Model expects " ++ toString (categoricalFeatures featureInfo).length ++
          " categorical features: " ++ sprintStrings (categoricalFeatures featureInfo) ++ "\n"]
      hn hc he2 (fun h => by simp [h]) (fun h => by simp [h])
  refine ⟨out1, nd1, cd1, ?_, ?_, ?_, ?_, ?_⟩
  · simp only [prepareValidationData, hlen, if_false]
    exact h1
  · rw [h2]
    split
    · simp
    · rename_i hz
      simp at hz
      simp [hz]
  · rw [h3]
    split
    · simp
    · rename_i hz
      simp at hz
      simp [hz]
  · intro i sample hi j name hj
    simpa using h7 i sample hi j name hj
  · intro i sample hi j name hj
    simpa using h8 i sample hi j name hj

theorem prepareValidationData_error (env : FloatEnv) (validationData : List ValidationData)
    (featureInfo : FeatureInfo)
    (h : validationData = [] ∨ ¬ FeaturesPresent validationData featureInfo ∨
      ¬ EncodersPresent featureInfo) :
    ∃ out err, prepareValidationData env validationData featureInfo = (out, .error err) := by
  by_cases hne : validationData = []
  · subst hne
    exact ⟨_, _, by simp only [prepareValidationData, List.length_nil, if_true]; rfl⟩
  · have hlen : validationData.length ≠ 0 := by
      cases validationData with
      | nil => exact absurd rfl hne
      | cons a b => simp
    have hbad : ∃ s ∈ validationData,
        (∃ name ∈ numericalFeatures featureInfo, s name = none) ∨
        (∃ name ∈ categoricalFeatures featureInfo, s name = none ∨
          featureInfo.MissingValueHandling.LabelEncoders name = none) := by
      rcases h with h | h | h
      · exact absurd h hne
      · unfold FeaturesPresent at h
        push_neg at h
        obtain ⟨s, hs, name, hn, hv⟩ := h
        rcases List.mem_append.mp hn with e | e
        · exact ⟨s, hs, Or.inl ⟨name, e, hv⟩⟩
        · exact ⟨s, hs, Or.inr ⟨name, e, Or.inl hv⟩⟩
      · unfold EncodersPresent at h
        push_neg at h
        obtain ⟨name, hn, hv⟩ := h
        cases validationData with
        | nil => exact absurd rfl hne
        | cons a b => exact ⟨a, by simp, Or.inr ⟨name, hn, Or.inr hv⟩⟩
    obtain ⟨out1, err, h1⟩ := sampleLoop_error env featureInfo (numericalFeatures featureInfo)
      (categoricalFeatures featureInfo) validationData 0
      (if (numericalFeatures featureInfo).length > 0 then
        List.replicate (validationData.length * (numericalFeatures featureInfo).length) 0
      else [])
      (if (categoricalFeatures featureInfo).length > 0 then
        List.replicate (validationData.length * (categoricalFeatures featureInfo).length) 0
      else [])
      ["Model expects " ++ toString (numericalFeatures featureInfo).length ++
          " numerical features: " ++ sprintStrings (numericalFeatures featureInfo) ++ "\n",
        "Model expects " ++ toString (categoricalFeatures featureInfo).length ++
          " categorical features: " ++ sprintStrings (categoricalFeatures featureInfo) ++ "\n"]
      hbad
    refine ⟨out1, err, ?_⟩
    simp only [prepareValidationData, hlen, if_false]
    exact h1

theorem createTensors_ok (b n c : Nat) (nd cd : List Float32) (N : Native)
    (hN : AllocSucceeds N) (hnd : 0 < n → nd ≠ []) (hcd : 0 < c → cd ≠ []) :
    createTensors b n c nd cd N =
      (.ok ({ ptr := N.allocs + 1 }, { ptr := N.allocs + 2 }),
        { allocOk := N.allocOk
          allocs := N.allocs + 2
          live := (N.allocs + 2) :: (N.allocs + 1) :: N.live
          log := N.log ++
            [.create_tensor_from_data (if 0 < n then nd else [0]) [(b : Int), (n : Int)],
             .create_int_tensor_from_data (if 0 < c then cd else [0]) [(b : Int), (c : Int)]] }) := by
  have h1 := hN N.allocs
  have h2 := hN (N.allocs + 1)
  by_cases hn : 0 < n <;> by_cases hc : 0 < c
  · have := hnd hn
    have := hcd hc
    simp [createTensors, createTensorFromData, createIntTensorFromData, Native.alloc, *]
  · have := hnd hn
    have hc0 : c = 0 := by omega
    subst hc0
    simp [createTensors, createTensorFromData, createIntTensorFromData, Native.alloc, *]
  · have := hcd hc
    have hn0 : n = 0 := by omega
    subst hn0
    simp [createTensors, createTensorFromData, createIntTensorFromData, Native.alloc, *]
  · have hc0 : c = 0 := by omega
    have hn0 : n = 0 := by omega
    subst hc0 hn0
    simp [createTensors, createTensorFromData, createIntTensorFromData, Native.alloc, *]

theorem createTensors_zero_numerical (b c : Nat) (nd cd : List Float32) (N : Native) :
    ∃ rest, (createTensors b 0 c nd cd N).2.log =
      N.log ++ NativeCall.create_tensor_from_data [0] [(b : Int), 0] :: rest := by
  by_cases h1 : N.allocOk N.allocs = true
  · by_cases hc : 0 < c
    · by_cases hcd : cd = []
      · exact ⟨[], by simp [createTensors, createTensorFromData, createIntTensorFromData,
          Native.alloc, *]⟩
      · by_cases h2 : N.allocOk (N.allocs + 1) = true
        · exact ⟨[.create_int_tensor_from_data cd [(b : Int), (c : Int)]], by
            simp [createTensors, createTensorFromData, createIntTensorFromData,
              Native.alloc, *]⟩
        · exact ⟨[.create_int_tensor_from_data cd [(b : Int), (c : Int)]], by
            simp [createTensors, createTensorFromData, createIntTensorFromData,
              Native.alloc, *]⟩
    · by_cases h2 : N.allocOk (N.allocs + 1) = true
      · exact ⟨[.create_int_tensor_from_data [0] [(b : Int), 0]], by
          simp [createTensors, createTensorFromData, createIntTensorFromData,
            Native.alloc, *]⟩
      · exact ⟨[.create_int_tensor_from_data [0] [(b : Int), 0]], by
          simp [createTensors, createTensorFromData, createIntTensorFromData,
            Native.alloc, *]⟩
  · exact ⟨[], by simp [createTensors, createTensorFromData, Native.alloc, *]⟩

theorem createTensors_zero_categorical (b n : Nat) (nd cd : List Float32) (N : Native)
    (h1 : N.allocOk N.allocs = true) (hnd : 0 < n → nd ≠ []) :
    ∃ first, (createTensors b n 0 nd cd N).2.log =
      N.log ++ [first, NativeCall.create_int_tensor_from_data [0] [(b : Int), 0]] := by
  by_cases hn : 0 < n
  · have := hnd hn
    by_cases h2 : N.allocOk (N.allocs + 1) = true
    · exact ⟨.create_tensor_from_data nd [(b : Int), (n : Int)], by
        simp [createTensors, createTensorFromData, createIntTensorFromData, Native.alloc, *]⟩
    · exact ⟨.create_tensor_from_data nd [(b : Int), (n : Int)], by
        simp [createTensors, createTensorFromData, createIntTensorFromData, Native.alloc, *]⟩
  · have hn0 : n = 0 := by omega
    subst hn0
    by_cases h2 : N.allocOk (N.allocs + 1) = true
    · exact ⟨.create_tensor_from_data [0] [(b : Int), 0], by
        simp [createTensors, createTensorFromData, createIntTensorFromData, Native.alloc, *]⟩
    · exact ⟨.create_tensor_from_data [0] [(b : Int), 0], by
        simp [createTensors, createTensorFromData, createIntTensorFromData, Native.alloc, *]⟩

theorem prepareValidationInput_of_ok (env : FloatEnv) (validationData : List ValidationData)
    (featureInfo : FeatureInfo) (N : Native) (out : List String) (nd cd : List Float32)
    (h : prepareValidationData env validationData featureInfo = (out, .ok (nd, cd))) :
    prepareValidationInput env validationData featureInfo N =
      { out := out
        native := (createTensors validationData.length (numericalFeatures featureInfo).length
          (categoricalFeatures featureInfo).length nd cd N).2
        result := (createTensors validationData.length (numericalFeatures featureInfo).length
          (categoricalFeatures featureInfo).length nd cd N).1 } := by
  simp only [prepareValidationInput, h]

theorem prepareValidationInput_of_error (env : FloatEnv) (validationData : List ValidationData)
    (featureInfo : FeatureInfo) (N : Native) (out : List String) (err : String)
    (h : prepareValidationData env validationData featureInfo = (out, .error err)) :
    prepareValidationInput env validationData featureInfo N =
      { out := out, native := N, result := .error err } := by
  simp only [prepareValidationInput, h]

theorem buffer_ne_nil (validationData : List ValidationData) (hne : validationData ≠ [])
    (n : Nat) (data : List Float32) (hlen : data.length = validationData.length * n) :
    0 < n → data ≠ [] := by
  intro hn hd
  subst hd
  have hl : 0 < validationData.length := List.length_pos.mpr hne
  have : 0 < validationData.length * n := Nat.mul_pos hl hn
  rw [List.length_nil] at hlen
  omega

theorem prepareValidationInput_ok (env : FloatEnv) (validationData : List ValidationData)
    (featureInfo : FeatureInfo) (N : Native) (hne : validationData ≠ [])
    (hf : FeaturesPresent validationData featureInfo) (he : EncodersPresent featureInfo)
    (hN : AllocSucceeds N) :
    ∃ out nd cd,
      prepareValidationData env validationData featureInfo = (out, .ok (nd, cd)) ∧
      (prepareValidationInput env validationData featureInfo N).out = out ∧
      (prepareValidationInput env validationData featureInfo N).result =
        .ok ({ ptr := N.allocs + 1 }, { ptr := N.allocs + 2 }) ∧
      (prepareValidationInput env validationData featureInfo N).native.log = N.log ++
        [.create_tensor_from_data
            (if 0 < (numericalFeatures featureInfo).length then nd else [0])
            [(validationData.length : Int), ((numericalFeatures featureInfo).length : Int)],
          .create_int_tensor_from_data
            (if 0 < (categoricalFeatures featureInfo).length then cd else [0])
            [(validationData.length : Int), ((categoricalFeatures featureInfo).length : Int)]] := by
  obtain ⟨out, nd, cd, h, hl1, hl2, _, _⟩ :=
    prepareValidationData_spec env validationData featureInfo hne hf he
  refine ⟨out, nd, cd, h, ?_, ?_, ?_⟩
  · rw [prepareValidationInput_of_ok env validationData featureInfo N out nd cd h]
  · rw [prepareValidationInput_of_ok env validationData featureInfo N out nd cd h,
      createTensors_ok _ _ _ nd cd N hN (buffer_ne_nil validationData hne _ nd hl1)
        (buffer_ne_nil validationData hne _ cd hl2)]
  · rw [prepareValidationInput_of_ok env validationData featureInfo N out nd cd h,
      createTensors_ok _ _ _ nd cd N hN (buffer_ne_nil validationData hne _ nd hl1)
        (buffer_ne_nil validationData hne _ cd hl2)]

/-- C1: for a non-empty batch in which every declared feature is present and
every declared categorical feature has an encoder, with native tensor creation
succeeding, `prepareValidationInput` returns two tensors, and the buffers it
fills are row-major in input order and schema order: `numericalData` has
length `batch * numFeatures` and holds `convertToFloat32` of
`records[i][numericalFeatures[j]]` at index `i * numFeatures + j`;
`categoricalData` has length `batch * catFeatures` and holds, as a `float32`,
the index `encodeCategoricalFromEncoder` gives the rendering of
`records[i][categoricalFeatures[j]]` at index `i * catFeatures + j`. A buffer
of positive width is the data handed to the tensor factory. -/
theorem prepareValidationInput_row_major (env : FloatEnv)
    (validationData : List ValidationData) (featureInfo : FeatureInfo) (N : Native)
    (hne : validationData ≠ []) (hf : FeaturesPresent validationData featureInfo)
    (he : EncodersPresent featureInfo) (hN : AllocSucceeds N) :
    ∃ out numericalData categoricalData numericalTensor categoricalTensor,
      prepareValidationData env validationData featureInfo =
        (out, .ok (numericalData, categoricalData)) ∧
      (prepareValidationInput env validationData featureInfo N).result =
        .ok (numericalTensor, categoricalTensor) ∧
      numericalData.length = validationData.length * (numericalFeatures featureInfo).length ∧
      categoricalData.length =
        validationData.length * (categoricalFeatures featureInfo).length ∧
      (∀ i sample, validationData[i]? = some sample →
        ∀ j name, (numericalFeatures featureInfo)[j]? = some name →
          ∃ value, sample name = some value ∧
            numericalData[i * (numericalFeatures featureInfo).length + j]? =
              some (convertToFloat32 env value)) ∧
      (∀ i sample, validationData[i]? = some sample →
        ∀ j name, (categoricalFeatures featureInfo)[j]? = some name →
          ∃ value encoder, sample name = some value ∧
            featureInfo.MissingValueHandling.LabelEncoders name = some encoder ∧
            categoricalData[i * (categoricalFeatures featureInfo).length + j]? =
              some (env.toFloat32
                ((encodeCategoricalFromEncoder (sprintV env value) encoder).1 : ℚ))) ∧
      (0 < (numericalFeatures featureInfo).length →
        NativeCall.create_tensor_from_data numericalData
            [(validationData.length : Int), ((numericalFeatures featureInfo).length : Int)] ∈
          (prepareValidationInput env validationData featureInfo N).native.log) ∧
      (0 < (categoricalFeatures featureInfo).length →
        NativeCall.create_int_tensor_from_data categoricalData
            [(validationData.length : Int), ((categoricalFeatures featureInfo).length : Int)] ∈
          (prepareValidationInput env validationData featureInfo N).native.log) := by
  obtain ⟨out, nd, cd, h, hl1, hl2, hrow1, hrow2⟩ :=
    prepareValidationData_spec env validationData featureInfo hne hf he
  obtain ⟨out2, nd2, cd2, h2, _, hres, hlog⟩ :=
    prepareValidationInput_ok env validationData featureInfo N hne hf he hN
  rw [h] at h2
  cases h2
  refine ⟨out, nd, cd, _, _, h, hres, hl1, hl2, hrow1, ?_, ?_, ?_⟩
  · intro i sample hi j name hj
    obtain ⟨v, enc, a, b, c, _⟩ := hrow2 i sample hi j name hj
    exact ⟨v, enc, a, b, c⟩
  · intro hz
    rw [hlog]
    simp [hz]
  · intro hz
    rw [hlog]
    simp [hz]

theorem scenario_features_present : FeaturesPresent [scenarioRecord] scenarioInfo := by
  unfold FeaturesPresent
  decide

theorem scenario_encoders_present : EncodersPresent scenarioInfo := by
  unfold EncodersPresent
  decide

theorem freshNative_allocSucceeds : AllocSucceeds freshNative := fun _ => rfl

/-- The end-to-end scenario of C1, obtained from `prepareValidationInput_row_major`:
schema numerical `a`, `b`, categorical `c` with classes `x`, `y`; the record
`a = 1.0, b = 2.0, c = "y"` gives the numerical buffer `[1.0, 2.0]` and the
categorical buffer `[1]`. -/
theorem prepareValidationInput_row_major_witness :
    [scenarioRecord] ≠ [] ∧ FeaturesPresent [scenarioRecord] scenarioInfo ∧
    EncodersPresent scenarioInfo ∧ AllocSucceeds freshNative ∧
    ∃ out numericalData categoricalData,
      prepareValidationData exactEnv [scenarioRecord] scenarioInfo =
        (out, .ok (numericalData, categoricalData)) ∧
      numericalData.length = 2 ∧ categoricalData.length = 1 ∧
      numericalData[0]? = some 1 ∧ numericalData[1]? = some 2 ∧
      categoricalData[0]? = some 1 := by
  refine ⟨by simp, scenario_features_present, scenario_encoders_present,
    freshNative_allocSucceeds, ?_⟩
  obtain ⟨out, nd, cd, _, _, h, _, hl1, hl2, hrow1, hrow2, _, _⟩ :=
    prepareValidationInput_row_major exactEnv [scenarioRecord] scenarioInfo freshNative
      (by simp) scenario_features_present scenario_encoders_present freshNative_allocSucceeds
  have hn : numericalFeatures scenarioInfo = ["a", "b"] := rfl
  have hc : categoricalFeatures scenarioInfo = ["c"] := rfl
  rw [hn] at hl1 hrow1
  rw [hc] at hl2 hrow2
  obtain ⟨va, hva, hda⟩ := hrow1 0 scenarioRecord rfl 0 "a" rfl
  obtain ⟨vb, hvb, hdb⟩ := hrow1 0 scenarioRecord rfl 1 "b" rfl
  obtain ⟨vc, enc, hvc, henc, hdc⟩ := hrow2 0 scenarioRecord rfl 0 "c" rfl
  have ea : scenarioRecord "a" = some (.float64 1) := rfl
  have eb : scenarioRecord "b" = some (.float64 2) := rfl
  have ec : scenarioRecord "c" = some (.string "y") := rfl
  have ee : scenarioInfo.MissingValueHandling.LabelEncoders "c" =
      some { Classes := ["x", "y"], Dtype := "object" } := rfl
  rw [ea] at hva
  rw [eb] at hvb
  rw [ec] at hvc
  rw [ee] at henc
  cases hva
  cases hvb
  cases hvc
  cases henc
  exact ⟨out, nd, cd, h, hl1, hl2, hda, hdb, hdc⟩

/-- C2: for every label encoder and every value occurring in its class list,
`encodeCategoricalFromEncoder` returns the smallest index `i` with
`Classes[i]` equal to the value (first match wins) and prints no warning. The
result is a function of the two arguments alone, so a second call yields the
same index. -/
theorem encodeCategoricalFromEncoder_known (value : String) (encoder : LabelEncoder)
    (h : value ∈ encoder.Classes) :
    ∃ i, encodeCategoricalFromEncoder value encoder = (i, []) ∧
      encoder.Classes[i]? = some value ∧
      (∀ k, k < i → encoder.Classes[k]? ≠ some value) ∧
      ∀ again, again = encodeCategoricalFromEncoder value encoder → again.1 = i := by
  cases hf : findClass value encoder.Classes 0 with
  | none => exact absurd h ((findClass_none value encoder.Classes 0).mp hf)
  | some i =>
    obtain ⟨_, h2, h3⟩ := findClass_some value encoder.Classes 0 i hf
    have he : encodeCategoricalFromEncoder value encoder = (i, []) := by
      simp only [encodeCategoricalFromEncoder, hf]
    refine ⟨i, he, by simpa using h2, fun k hk => h3 k (by simpa using hk), ?_⟩
    intro again ha
    rw [ha, he]

/-- A class list in which `y` occurs twice: the first occurrence, index 1, wins. -/
theorem encodeCategoricalFromEncoder_known_witness :
    "y" ∈ ["x", "y", "y"] ∧
    ∃ i, encodeCategoricalFromEncoder "y" { Classes := ["x", "y", "y"], Dtype := "" } = (i, []) ∧
      ["x", "y", "y"][i]? = some "y" ∧
      (∀ k, k < i → ["x", "y", "y"][k]? ≠ some "y") ∧
      ∀ again, again = encodeCategoricalFromEncoder "y"
        { Classes := ["x", "y", "y"], Dtype := "" } → again.1 = i :=
  ⟨by decide,
    encodeCategoricalFromEncoder_known "y" { Classes := ["x", "y", "y"], Dtype := "" }
      (by decide)⟩

/-- C3: for every label encoder, the empty one included, and every value that
does not occur in its class list, `encodeCategoricalFromEncoder` returns index
0 and prints the unknown-category warning; it has no failure result. A batch
holding such a value in some categorical cell is still built: for a non-empty
batch with every declared feature present and every encoder declared,
`prepareValidationInput` returns its two tensors when native creation
succeeds, the warning is part of what it printed, and the cell holds
`float32(0)`. -/
theorem encodeCategoricalFromEncoder_unknown (value : String) (encoder : LabelEncoder)
    (h : value ∉ encoder.Classes) :
    encodeCategoricalFromEncoder value encoder = (0, [unknownWarning value]) ∧
    ∀ (env : FloatEnv) (validationData : List ValidationData) (featureInfo : FeatureInfo)
      (N : Native), validationData ≠ [] → FeaturesPresent validationData featureInfo →
      EncodersPresent featureInfo → AllocSucceeds N →
      ∀ i sample j name cell, validationData[i]? = some sample →
        (categoricalFeatures featureInfo)[j]? = some name →
        sample name = some cell → sprintV env cell = value →
        featureInfo.MissingValueHandling.LabelEncoders name = some encoder →
        ∃ numericalTensor categoricalTensor numericalData categoricalData,
          (prepareValidationInput env validationData featureInfo N).result =
            .ok (numericalTensor, categoricalTensor) ∧
          unknownWarning value ∈ (prepareValidationInput env validationData featureInfo N).out ∧
          (prepareValidationData env validationData featureInfo).2 =
            .ok (numericalData, categoricalData) ∧
          categoricalData[i * (categoricalFeatures featureInfo).length + j]? =
            some (env.toFloat32 0) := by
  have he : encodeCategoricalFromEncoder value encoder = (0, [unknownWarning value]) := by
    have hf := (findClass_none value encoder.Classes 0).mpr h
    simp only [encodeCategoricalFromEncoder, hf]
  refine ⟨he, ?_⟩
  intro env validationData featureInfo N hne hfp hep hN i sample j name cell hi hj hcell hs henc
  obtain ⟨out, nd, cd, h1, _, _, _, hrow2⟩ :=
    prepareValidationData_spec env validationData featureInfo hne hfp hep
  obtain ⟨out2, nd2, cd2, h2, hout, hres, _⟩ :=
    prepareValidationInput_ok env validationData featureInfo N hne hfp hep hN
  rw [h1] at h2
  cases h2
  obtain ⟨v, enc, hv, hen, hd, hw⟩ := hrow2 i sample hi j name hj
  rw [hcell] at hv
  cases hv
  rw [henc] at hen
  cases hen
  rw [hs, he] at hd hw
  refine ⟨_, _, nd, cd, hres, ?_, by rw [h1], ?_⟩
  · rw [hout]
    exact hw _ (by simp)
  · simpa using hd

/-- The value `zz` against the classes `x`, `y`, and the batch made of the
scenario record followed by the record whose category is `zz`. -/
theorem encodeCategoricalFromEncoder_unknown_witness :
    "zz" ∉ ["x", "y"] ∧
    encodeCategoricalFromEncoder "zz" { Classes := ["x", "y"], Dtype := "object" } =
      (0, [unknownWarning "zz"]) ∧
    ∃ numericalTensor categoricalTensor numericalData categoricalData,
      (prepareValidationInput exactEnv [scenarioRecord, unknownRecord] scenarioInfo
        freshNative).result = .ok (numericalTensor, categoricalTensor) ∧
      unknownWarning "zz" ∈
        (prepareValidationInput exactEnv [scenarioRecord, unknownRecord] scenarioInfo
          freshNative).out ∧
      (prepareValidationData exactEnv [scenarioRecord, unknownRecord] scenarioInfo).2 =
        .ok (numericalData, categoricalData) ∧
      categoricalData[1]? = some 0 :=
  ⟨by decide,
    (encodeCategoricalFromEncoder_unknown "zz" { Classes := ["x", "y"], Dtype := "object" }
      (by decide)).1,
    (encodeCategoricalFromEncoder_unknown "zz" { Classes := ["x", "y"], Dtype := "object" }
      (by decide)).2 exactEnv [scenarioRecord, unknownRecord] scenarioInfo freshNative
      (by simp) (by unfold FeaturesPresent; decide) scenario_encoders_present
      freshNative_allocSucceeds 1 unknownRecord 0 "c" (.string "zz") rfl rfl rfl rfl rfl⟩

/-- C4: with native tensor creation succeeding, `prepareValidationInput`
returns an error exactly when the record list is empty, or some record lacks a
declared numerical or categorical feature, or some declared categorical
feature has no label encoder; in every other case it returns two tensors. On
the error it has made no native call, so no tensor exists and no buffer with a
zero-filled gap has been handed over. -/
theorem prepareValidationInput_error_iff (env : FloatEnv)
    (validationData : List ValidationData) (featureInfo : FeatureInfo) (N : Native)
    (hN : AllocSucceeds N) :
    ((∃ err, (prepareValidationInput env validationData featureInfo N).result = .error err) ↔
      (validationData = [] ∨ ¬ FeaturesPresent validationData featureInfo ∨
        ¬ EncodersPresent featureInfo)) ∧
    ((∃ numericalTensor categoricalTensor,
        (prepareValidationInput env validationData featureInfo N).result =
          .ok (numericalTensor, categoricalTensor)) ↔
      ¬ (validationData = [] ∨ ¬ FeaturesPresent validationData featureInfo ∨
        ¬ EncodersPresent featureInfo)) ∧
    ((validationData = [] ∨ ¬ FeaturesPresent validationData featureInfo ∨
        ¬ EncodersPresent featureInfo) →
      (prepareValidationInput env validationData featureInfo N).native.log = N.log ∧
      (prepareValidationInput env validationData featureInfo N).native.live = N.live) := by
  by_cases hbad : validationData = [] ∨ ¬ FeaturesPresent validationData featureInfo ∨
      ¬ EncodersPresent featureInfo
  · obtain ⟨out, err, h⟩ := prepareValidationData_error env validationData featureInfo hbad
    have hr := prepareValidationInput_of_error env validationData featureInfo N out err h
    refine ⟨⟨fun _ => hbad, fun _ => ⟨err, by rw [hr]⟩⟩, ⟨?_, fun hn => absurd hbad hn⟩,
      fun _ => by rw [hr]; exact ⟨rfl, rfl⟩⟩
    rintro ⟨t1, t2, ht⟩
    rw [hr] at ht
    cases ht
  · have hgood := hbad
    push_neg at hgood
    obtain ⟨hne, hf, he⟩ := hgood
    obtain ⟨_, _, _, _, _, hres, _⟩ :=
      prepareValidationInput_ok env validationData featureInfo N hne hf he hN
    refine ⟨⟨?_, fun h => absurd h hbad⟩, ⟨fun _ => hbad, fun _ => ⟨_, _, hres⟩⟩,
      fun h => absurd h hbad⟩
    rintro ⟨err, herr⟩
    rw [hres] at herr
    cases herr

/-- The scenario record against a schema that also declares the numerical
feature `d`, which the record lacks: the call returns an error. -/
theorem prepareValidationInput_error_iff_witness :
    AllocSucceeds freshNative ∧
    ¬ FeaturesPresent [scenarioRecord]
      { scenarioInfo with FeatureNames := fun k =>
          if k = "numerical" then some ["a", "d"] else scenarioInfo.FeatureNames k } ∧
    ∃ err, (prepareValidationInput exactEnv [scenarioRecord]
      { scenarioInfo with FeatureNames := fun k =>
          if k = "numerical" then some ["a", "d"] else scenarioInfo.FeatureNames k }
      freshNative).result = .error err :=
  ⟨freshNative_allocSucceeds, by unfold FeaturesPresent; decide,
    (prepareValidationInput_error_iff exactEnv [scenarioRecord]
      { scenarioInfo with FeatureNames := fun k =>
          if k = "numerical" then some ["a", "d"] else scenarioInfo.FeatureNames k }
      freshNative freshNative_allocSucceeds).1.mpr
      (Or.inr (Or.inl (by unfold FeaturesPresent; decide)))⟩

/-- C5, as stated, fails: a value of dynamic type `int32` holding 5 takes the
default branch of the type switch, so `convertToFloat32` returns the fallback
0.0 and not `float32(5)`. -/
theorem convertToFloat32_int32_counterexample :
    convertToFloat32 exactEnv (Value.int32 5) = 0 ∧
    convertToFloat32 exactEnv (Value.int32 5) ≠ exactEnv.toFloat32 ((5 : Int) : ℚ) := by
  constructor
  · rfl
  · show (0 : ℚ) ≠ ((5 : Int) : ℚ)
    norm_num

/-- C5, amended: `convertToFloat32` converts a value of type `int` or `int64`
to `float32` (as it does a `float64`, while a `float32` is returned as is and
a string gives the `float32` of the number scanned from it, or 0.0 when the
scan fails); a value of any other dynamic type gives the fallback 0.0, the
signed integer types `int8`, `int16` and `int32` included. -/
theorem convertToFloat32_cases (env : FloatEnv) :
    (∀ v : Int, convertToFloat32 env (.int v) = env.toFloat32 (v : ℚ)) ∧
    (∀ v : Int, convertToFloat32 env (.int64 v) = env.toFloat32 (v : ℚ)) ∧
    (∀ v : Float64, convertToFloat32 env (.float64 v) = env.toFloat32 v) ∧
    (∀ v : Float32, convertToFloat32 env (.float32 v) = v) ∧
    (∀ s : String, convertToFloat32 env (.string s) =
      ((env.sscanf s).map env.toFloat32).getD 0) ∧
    (∀ v : Int, convertToFloat32 env (.int8 v) = 0) ∧
    (∀ v : Int, convertToFloat32 env (.int16 v) = 0) ∧
    (∀ v : Int, convertToFloat32 env (.int32 v) = 0) ∧
    (∀ v : Nat, convertToFloat32 env (.uint64 v) = 0) ∧
    (∀ v : Bool, convertToFloat32 env (.bool v) = 0) ∧
    convertToFloat32 env .nil = 0 ∧
    (∀ r : String, convertToFloat32 env (.other r) = 0) := by
  refine ⟨fun _ => rfl, fun _ => rfl, fun _ => rfl, fun _ => rfl, ?_, fun _ => rfl,
    fun _ => rfl, fun _ => rfl, fun _ => rfl, fun _ => rfl, rfl, fun _ => rfl⟩
  intro s
  simp only [convertToFloat32]
  cases env.sscanf s <;> rfl

/-- C6: for a non-empty batch that passes the encoding loops, a schema with no
numerical feature makes `prepareValidationInput` hand the tensor factory a
placeholder buffer of exactly one element with the dimensions `[batch, 0]`, as
its first native call; a schema with no categorical feature makes it hand the
integer tensor factory the same placeholder and dimensions, whatever the width
of the numerical buffer, once the numerical tensor exists; and with native
creation succeeding the call returns its two tensors. -/
theorem prepareValidationInput_zero_width (env : FloatEnv)
    (validationData : List ValidationData) (featureInfo : FeatureInfo) (N : Native)
    (hne : validationData ≠ []) (hf : FeaturesPresent validationData featureInfo)
    (he : EncodersPresent featureInfo) :
    (numericalFeatures featureInfo = [] →
      ∃ rest, (prepareValidationInput env validationData featureInfo N).native.log =
        N.log ++ NativeCall.create_tensor_from_data [0] [(validationData.length : Int), 0] ::
          rest) ∧
    (categoricalFeatures featureInfo = [] → N.allocOk N.allocs = true →
      ∃ first, (prepareValidationInput env validationData featureInfo N).native.log =
        N.log ++ [first,
          NativeCall.create_int_tensor_from_data [0] [(validationData.length : Int), 0]]) ∧
    (AllocSucceeds N →
      ∃ numericalTensor categoricalTensor,
        (prepareValidationInput env validationData featureInfo N).result =
          .ok (numericalTensor, categoricalTensor)) := by
  obtain ⟨out, nd, cd, h, hl1, _, _, _⟩ :=
    prepareValidationData_spec env validationData featureInfo hne hf he
  have hr := prepareValidationInput_of_ok env validationData featureInfo N out nd cd h
  refine ⟨?_, ?_, ?_⟩
  · intro hz
    rw [hr, hz]
    exact createTensors_zero_numerical _ _ nd cd N
  · intro hz h1
    rw [hr, hz]
    exact createTensors_zero_categorical _ _ nd cd N h1
      (buffer_ne_nil validationData hne _ nd hl1)
  · intro hN
    obtain ⟨_, _, _, _, _, hres, _⟩ :=
      prepareValidationInput_ok env validationData featureInfo N hne hf he hN
    exact ⟨_, _, hres⟩

/-- A batch of one record against the schema that declares no feature: both
factories receive the one-element placeholder with dimensions `[1, 0]`. -/
theorem prepareValidationInput_zero_width_witness :
    [scenarioRecord] ≠ [] ∧ FeaturesPresent [scenarioRecord] emptyInfo ∧
    EncodersPresent emptyInfo ∧
    (∃ rest, (prepareValidationInput exactEnv [scenarioRecord] emptyInfo freshNative).native.log =
      freshNative.log ++
        NativeCall.create_tensor_from_data [0] [(([scenarioRecord].length : Nat) : Int), 0] ::
          rest) ∧
    (∃ first, (prepareValidationInput exactEnv [scenarioRecord] emptyInfo freshNative).native.log =
      freshNative.log ++ [first,
        NativeCall.create_int_tensor_from_data [0] [(([scenarioRecord].length : Nat) : Int), 0]]) ∧
    ∃ numericalTensor categoricalTensor,
      (prepareValidationInput exactEnv [scenarioRecord] emptyInfo freshNative).result =
        .ok (numericalTensor, categoricalTensor) :=
  have hf : FeaturesPresent [scenarioRecord] emptyInfo := by unfold FeaturesPresent; decide
  have he : EncodersPresent emptyInfo := by unfold EncodersPresent; decide
  ⟨by simp, hf, he,
    (prepareValidationInput_zero_width exactEnv [scenarioRecord] emptyInfo freshNative
      (by simp) hf he).1 rfl,
    (prepareValidationInput_zero_width exactEnv [scenarioRecord] emptyInfo freshNative
      (by simp) hf he).2.1 rfl rfl,
    (prepareValidationInput_zero_width exactEnv [scenarioRecord] emptyInfo freshNative
      (by simp) hf he).2.2 freshNative_allocSucceeds⟩

/-! ## The binary64 model on known values -/

theorem tolerance_value : tolerance = .finite (4722366482869645 / 2 ^ 72) := by
  decide!

theorem round64_known_values :
    round64 (1 / 10) = .finite (3602879701896397 / 36028797018963968) ∧
    (round64 (1 / 10)).add (round64 (2 / 10)) =
      .finite (1351079888211149 / 4503599627370496) ∧
    round64 (50000001 / 10000000) = .finite (5629499646803111 / 1125899906842624) ∧
    round64 (pow2 53 + 1) = .finite (pow2 53) ∧
    round64 (pow2 53 + 3) = .finite (pow2 53 + 4) ∧
    round64 (pow2 1024 - pow2 970 - 1) = .finite (pow2 1024 - pow2 971) ∧
    round64 (pow2 1024 - pow2 970) = .posInf ∧
    round64 (pow2 (-1075)) = .finite 0 ∧
    round64 (3 * pow2 (-1075)) = .finite (pow2 (-1073)) ∧
    (round64 (pow2 600)).mul (round64 (pow2 600)) = .posInf := by
  decide!

theorem validationReport_overflow :
    (validationReport false tolerance [.finite 0] [round64 (10 ^ 200)] 1).map
      (fun r => (r.rows, r.mse, r.mae)) =
      some ([.DIFF], .posInf, round64 (10 ^ 200)) := by
  decide!

/-! ## Lemmas on the scoring loop -/

theorem scorePair_fst (fused : Bool) (tol predicted expected : Binary64) (st : Score) :
    (scorePair fused tol predicted expected st).1 =
      if (predicted.sub expected).abs.eq (.finite 0) = true then .EXACT
      else if (predicted.sub expected).abs.lt tol = true then .CLOSE else .DIFF := by
  unfold scorePair
  simp only
  split_ifs <;> rfl

theorem abs_pos_of_lt (x tol : Binary64) (h0 : x.abs.eq (.finite 0) = false)
    (hlt : x.abs.lt tol = true) : (Binary64.finite 0).lt x.abs = true := by
  cases x with
  | finite q =>
    simp only [Binary64.abs, Binary64.eq, decide_eq_false_iff_not] at h0
    simp only [Binary64.abs, Binary64.lt, decide_eq_true_eq]
    exact lt_of_le_of_ne (abs_nonneg q) (Ne.symm h0)
  | posInf => cases tol <;> simp [Binary64.abs, Binary64.lt] at hlt
  | negInf => cases tol <;> simp [Binary64.abs, Binary64.lt] at hlt
  | nan => cases tol <;> simp [Binary64.abs, Binary64.lt] at hlt

theorem not_lt_of_eq (a b : Binary64) (h : a.eq b = true) : a.lt b = false := by
  cases a <;> cases b <;> simp [Binary64.eq, Binary64.lt] at h ⊢
  rw [h]

/-- C7: the loop body gives every pair exactly one match status, for every
tolerance, decided on the absolute error it computes in `float64`, that is
`math.Abs` of the rounded difference `predicted - expected`: `EXACT` if and
only if that error `== 0`, `CLOSE` if and only if it is above 0 and below the
tolerance, and `DIFF` in every other case, that is when the error is not 0
and not below the tolerance (a NaN error included). An error equal to a
tolerance other than 0 is `DIFF`. -/
theorem scorePair_classifies (fused : Bool) (tolerance predicted expected : Binary64)
    (st : Score) :
    ((scorePair fused tolerance predicted expected st).1 = .EXACT ↔
      (predicted.sub expected).abs.eq (.finite 0) = true) ∧
    ((scorePair fused tolerance predicted expected st).1 = .CLOSE ↔
      (Binary64.finite 0).lt (predicted.sub expected).abs = true ∧
        (predicted.sub expected).abs.lt tolerance = true) ∧
    ((scorePair fused tolerance predicted expected st).1 = .DIFF ↔
      ¬ ((predicted.sub expected).abs.eq (.finite 0) = true) ∧
        ¬ ((Binary64.finite 0).lt (predicted.sub expected).abs = true ∧
          (predicted.sub expected).abs.lt tolerance = true)) ∧
    ((scorePair fused tolerance predicted expected st).1 = .DIFF ↔
      (predicted.sub expected).abs.eq (.finite 0) = false ∧
        (predicted.sub expected).abs.lt tolerance = false) ∧
    ((predicted.sub expected).abs.eq tolerance = true →
      (predicted.sub expected).abs.eq (.finite 0) = false →
      (scorePair fused tolerance predicted expected st).1 = .DIFF) := by
  rw [scorePair_fst]
  cases h0 : (predicted.sub expected).abs.eq (.finite 0) with
  | true =>
    have hz : (Binary64.finite 0).lt (predicted.sub expected).abs = false := by
      have := not_lt_of_eq _ _ h0
      cases hx : (predicted.sub expected).abs <;> rw [hx] at h0 <;>
        simp [Binary64.eq, Binary64.lt] at h0 ⊢
      rw [h0]
    simp [hz]
  | false =>
    cases ht : (predicted.sub expected).abs.lt tolerance with
    | true =>
      have hp := abs_pos_of_lt (predicted.sub expected) tolerance h0 ht
      have hne : (predicted.sub expected).abs.eq tolerance = false := by
        cases he : (predicted.sub expected).abs.eq tolerance with
        | false => rfl
        | true =>
          have := not_lt_of_eq _ _ he
          rw [ht] at this
          cases this
      simp [hp, hne]
    | false => simp

/-- The three pairs of the specification against the tolerance `1e-6`, each
decimal rounded to `float64`, and the pair 0 and `1e-6`, whose absolute error
equals the tolerance. -/
theorem scorePair_classifies_witness :
    (scorePair false tolerance (round64 5) (round64 5) Score.zero).1 = .EXACT ∧
    ((round64 5).sub (round64 5)).abs = .finite 0 ∧
    (scorePair false tolerance (round64 (50000001 / 10000000)) (round64 5) Score.zero).1 =
      .CLOSE ∧
    (scorePair false tolerance (round64 (501 / 100)) (round64 5) Score.zero).1 = .DIFF ∧
    ((Binary64.finite 0).sub tolerance).abs.eq tolerance = true ∧
    (scorePair false tolerance (.finite 0) tolerance Score.zero).1 = .DIFF :=
  ⟨(scorePair_classifies false tolerance (round64 5) (round64 5) Score.zero).1.mpr
      (by decide!),
    by decide!,
    (scorePair_classifies false tolerance (round64 (50000001 / 10000000)) (round64 5)
      Score.zero).2.1.mpr ⟨by decide!, by decide!⟩,
    (scorePair_classifies false tolerance (round64 (501 / 100)) (round64 5)
      Score.zero).2.2.2.1.mpr ⟨by decide!, by decide!⟩,
    by decide!,
    (scorePair_classifies false tolerance (.finite 0) tolerance Score.zero).2.2.2.2
      (by decide!) (by decide!)⟩

/-- C8, on the failing input: three predictions against two expected values,
with three records. Two pairs are scored and both rows read `EXACT`, so no
scored pair is `DIFF`; the summary reports 2 exact, 0 close and 1 different,
which sum to 3 and not to the 2 scored pairs. The outcome is the same whether
or not the compiler fuses the multiply-add. -/
theorem validationReport_counts_at_mismatch :
    (validationReport false tolerance [.finite 1, .finite 2, .finite 3]
        [.finite 1, .finite 2] 3).map
      (fun r => (r.rows, r.exactMatches, r.closeMatches, r.differentValues)) =
      some ([.EXACT, .EXACT], 2, 0, 1) ∧
    (validationReport true tolerance [.finite 1, .finite 2, .finite 3]
        [.finite 1, .finite 2] 3).map
      (fun r => (r.rows, r.exactMatches, r.closeMatches, r.differentValues)) =
      some ([.EXACT, .EXACT], 2, 0, 1) := by
  decide!

/-- C9, on the failing input: three predictions against two expected values,
with three records. Both scored pairs are `EXACT`, yet the final check prints
the warning, with 1 differing prediction. With the lengths exchanged, two
predictions against three expected values, it prints the success message. -/
theorem validationReport_verdict_at_mismatch :
    (validationReport false tolerance [.finite 1, .finite 2, .finite 3]
        [.finite 1, .finite 2] 3).map (fun r => (r.rows, r.verdict)) =
      some ([.EXACT, .EXACT], .WARNING 1) ∧
    (validationReport true tolerance [.finite 1, .finite 2, .finite 3]
        [.finite 1, .finite 2] 3).map (fun r => (r.rows, r.verdict)) =
      some ([.EXACT, .EXACT], .WARNING 1) ∧
    (validationReport false tolerance [.finite 1, .finite 2]
        [.finite 1, .finite 2, .finite 3] 2).map (fun r => (r.rows, r.verdict)) =
      some ([.EXACT, .EXACT], .SUCCESS) := by
  decide!

/-- C10, on the failing input: two predictions, both 2, against one expected
value 0, with two records. One pair is scored, with squared error 4 and
absolute error 2; the summary reports a mean squared error of 2 and a mean
absolute error of 1, the sums divided by the 2 predictions and not by the 1
scored pair, and 100 percent different values. The outcome is the same whether
or not the compiler fuses the multiply-add. -/
theorem validationReport_means_at_mismatch :
    (validationReport false tolerance [.finite 2, .finite 2] [.finite 0] 2).map
      (fun r => (r.rows, r.mse, r.mae, r.numSamples, r.differentPercent)) =
      some ([.DIFF], .finite 2, .finite 1, .finite 2, .finite 100) ∧
    (validationReport true tolerance [.finite 2, .finite 2] [.finite 0] 2).map
      (fun r => (r.rows, r.mse, r.mae, r.numSamples, r.differentPercent)) =
      some ([.DIFF], .finite 2, .finite 1, .finite 2, .finite 100) := by
  decide!

/-! ## Lemmas on the handles -/

theorem forward_count_free_tensor (m : TorchModule) (n c : TorchTensor) (N : Native) (p : Nat) :
    (m.Forward n c N).2.log.count (.free_tensor p) = N.log.count (.free_tensor p) := by
  unfold TorchModule.Forward Native.alloc
  split_ifs <;> simp [List.count_append, List.count_cons]

theorem forward_count_free_module (m : TorchModule) (n c : TorchTensor) (N : Native) (p : Nat) :
    (m.Forward n c N).2.log.count (.free_torch_module p) =
      N.log.count (.free_torch_module p) := by
  unfold TorchModule.Forward Native.alloc
  split_ifs <;> simp [List.count_append, List.count_cons]

theorem toFloat64Slice_count_free_tensor (M : TensorMemory) (t : TorchTensor) (N : Native)
    (p : Nat) :
    (t.ToFloat64Slice M N).2.log.count (.free_tensor p) = N.log.count (.free_tensor p) := by
  unfold TorchTensor.ToFloat64Slice Native.call
  simp only
  cases M.data t.ptr <;> split_ifs <;> simp [List.count_append, List.count_cons]

theorem tensor_step_released (M : TensorMemory) (N : Native) (op : TensorOp) :
    TorchTensor.step M { ptr := 0 } N op = (({ ptr := 0 }, N), true) := by
  cases op <;> simp [TorchTensor.step, TorchTensor.Free, TorchTensor.ToFloat64Slice,
    TorchModule.Forward]
  all_goals split_ifs <;> rfl

theorem tensor_run_released (M : TensorMemory) :
    ∀ (ops : List TensorOp) (N : Native),
      TorchTensor.run M ops { ptr := 0 } N = ({ ptr := 0 }, N) := by
  intro ops
  induction ops with
  | nil => intro N; rfl
  | cons op ops ih =>
    intro N
    simp only [TorchTensor.run, tensor_step_released, ih]

theorem module_step_released (N : Native) (op : ModuleOp) :
    TorchModule.step { ptr := 0 } N op = ({ ptr := 0 }, N) := by
  cases op <;> simp [TorchModule.step, TorchModule.Free, TorchModule.Forward]

theorem module_run_released :
    ∀ (ops : List ModuleOp) (N : Native),
      TorchModule.run ops { ptr := 0 } N = ({ ptr := 0 }, N) := by
  intro ops
  induction ops with
  | nil => intro N; rfl
  | cons op ops ih =>
    intro N
    simp only [TorchModule.run, module_step_released, ih]

theorem tensor_step_slice (M : TensorMemory) (t : TorchTensor) (N : Native) :
    ∃ b, TorchTensor.step M t N .ToFloat64Slice = ((t, (t.ToFloat64Slice M N).2), b) := by
  simp only [TorchTensor.step]
  split
  · rename_i h
    exact ⟨false, by rw [h]⟩
  · rename_i h
    exact ⟨true, by rw [h]⟩

theorem tensor_run_cons_same (M : TensorMemory) (op : TensorOp) (ops : List TensorOp)
    (t : TorchTensor) (N N1 : Native) (b : Bool)
    (h : TorchTensor.step M t N op = ((t, N1), b)) :
    TorchTensor.run M (op :: ops) t N = TorchTensor.run M ops t N1 ∨
      TorchTensor.run M (op :: ops) t N = (t, N1) := by
  cases b with
  | true => exact Or.inl (by simp only [TorchTensor.run, h])
  | false => exact Or.inr (by simp only [TorchTensor.run, h])

theorem tensor_run_count (M : TensorMemory) (p : Nat) :
    ∀ (ops : List TensorOp) (t : TorchTensor) (N : Native),
      (TorchTensor.run M ops t N).2.log.count (.free_tensor p) ≤
        N.log.count (.free_tensor p) + (if p = t.ptr ∧ t.ptr ≠ 0 then 1 else 0) := by
  intro ops
  induction ops with
  | nil => intro t N; simp [TorchTensor.run]
  | cons op ops ih =>
    intro t N
    by_cases h0 : t.ptr = 0
    · have ht : t = { ptr := 0 } := by
        cases t
        simp only at h0
        rw [h0]
      rw [ht, tensor_run_released]
      simp
    · have same : ∀ N1 b, TorchTensor.step M t N op = ((t, N1), b) →
          N1.log.count (.free_tensor p) = N.log.count (.free_tensor p) →
          (TorchTensor.run M (op :: ops) t N).2.log.count (.free_tensor p) ≤
            N.log.count (.free_tensor p) + (if p = t.ptr ∧ t.ptr ≠ 0 then 1 else 0) := by
        intro N1 b hstep hcount
        rcases tensor_run_cons_same M op ops t N N1 b hstep with e | e
        · rw [e, ← hcount]
          exact ih t N1
        · rw [e]
          simp only
          omega
      cases op with
      | Free =>
        have hs : TorchTensor.step M t N .Free =
            (({ ptr := 0 },
              { N with live := N.live.erase t.ptr, log := N.log ++ [.free_tensor t.ptr] }),
              true) := by
          simp [TorchTensor.step, TorchTensor.Free, h0]
        simp only [TorchTensor.run, hs, tensor_run_released, List.count_append]
        by_cases hp : p = t.ptr
        · simp [hp, h0]
        · have hne : NativeCall.free_tensor t.ptr ≠ NativeCall.free_tensor p := by
            intro e
            cases e
            exact hp rfl
          simp [hp, List.count_cons, hne]
      | ToFloat64Slice =>
        obtain ⟨b, hb⟩ := tensor_step_slice M t N
        exact same _ b hb (toFloat64Slice_count_free_tensor M t N p)
      | ForwardNumerical m c =>
        exact same _ true rfl (forward_count_free_tensor m t c N p)
      | ForwardCategorical m n =>
        exact same _ true rfl (forward_count_free_tensor m n t N p)
      | ForwardBoth m =>
        exact same _ true rfl (forward_count_free_tensor m t t N p)

theorem module_run_count (p : Nat) :
    ∀ (ops : List ModuleOp) (m : TorchModule) (N : Native),
      (TorchModule.run ops m N).2.log.count (.free_torch_module p) ≤
        N.log.count (.free_torch_module p) + (if p = m.ptr ∧ m.ptr ≠ 0 then 1 else 0) := by
  intro ops
  induction ops with
  | nil => intro m N; simp [TorchModule.run]
  | cons op ops ih =>
    intro m N
    by_cases h0 : m.ptr = 0
    · have hm : m = { ptr := 0 } := by
        cases m
        simp only at h0
        rw [h0]
      rw [hm, module_run_released]
      simp
    · cases op with
      | Free =>
        have hs : TorchModule.step m N .Free =
            ({ ptr := 0 }, N.call (.free_torch_module m.ptr)) := by
          simp [TorchModule.step, TorchModule.Free, h0]
        simp only [TorchModule.run, hs, module_run_released, Native.call, List.count_append]
        by_cases hp : p = m.ptr
        · simp [hp, h0]
        · have hne : NativeCall.free_torch_module m.ptr ≠ NativeCall.free_torch_module p := by
            intro e
            cases e
            exact hp rfl
          simp [hp, List.count_cons, hne]
      | Forward n c =>
        simp only [TorchModule.run, TorchModule.step]
        rw [← forward_count_free_module m n c N p]
        exact ih m _

/-- C11: for a tensor handle and for a module handle, in any state of the
native engine. The first `Free` on a bound handle calls the native free
function with the handle's pointer and sets the pointer to nil; `Free` on a
released handle changes neither the handle nor the engine; `ToFloat64Slice` on
a released tensor, and `Forward` with a released handle as the module or as
either input, return an error and make no native call at all. Hence every
sequence of operations on a released handle leaves handle and engine as they
were, and over every sequence of `Free`, `Forward` and `ToFloat64Slice`
operations on a handle the native free function is called at most once with
the handle's pointer and never with another one. -/
theorem handle_free_at_most_once (M : TensorMemory) (N : Native) :
    (∀ p, TorchTensor.Free { ptr := p + 1 } N =
      ({ ptr := 0 },
        { N with live := N.live.erase (p + 1), log := N.log ++ [.free_tensor (p + 1)] })) ∧
    TorchTensor.Free { ptr := 0 } N = ({ ptr := 0 }, N) ∧
    TorchTensor.ToFloat64Slice M { ptr := 0 } N = (.error "tensor is nil", N) ∧
    (∀ m c, ∃ err, TorchModule.Forward m { ptr := 0 } c N = (.error err, N)) ∧
    (∀ m n, ∃ err, TorchModule.Forward m n { ptr := 0 } N = (.error err, N)) ∧
    (∀ ops, TorchTensor.run M ops { ptr := 0 } N = ({ ptr := 0 }, N)) ∧
    (∀ ops t p, (TorchTensor.run M ops t N).2.log.count (.free_tensor p) ≤
      N.log.count (.free_tensor p) + (if p = t.ptr ∧ t.ptr ≠ 0 then 1 else 0)) ∧
    (∀ p, TorchModule.Free { ptr := p + 1 } N =
      ({ ptr := 0 }, N.call (.free_torch_module (p + 1)))) ∧
    TorchModule.Free { ptr := 0 } N = ({ ptr := 0 }, N) ∧
    (∀ n c, TorchModule.Forward { ptr := 0 } n c N = (.error "module is nil", N)) ∧
    (∀ ops, TorchModule.run ops { ptr := 0 } N = ({ ptr := 0 }, N)) ∧
    (∀ ops m p, (TorchModule.run ops m N).2.log.count (.free_torch_module p) ≤
      N.log.count (.free_torch_module p) + (if p = m.ptr ∧ m.ptr ≠ 0 then 1 else 0)) := by
  refine ⟨?_, ?_, ?_, ?_, ?_, fun ops => tensor_run_released M ops N,
    fun ops t p => tensor_run_count M p ops t N, ?_, ?_, ?_,
    fun ops => module_run_released ops N, fun ops m p => module_run_count p ops m N⟩
  · intro p
    simp [TorchTensor.Free]
  · simp [TorchTensor.Free]
  · simp [TorchTensor.ToFloat64Slice]
  · intro m c
    by_cases hm : m.ptr = 0
    · exact ⟨"module is nil", by simp [TorchModule.Forward, hm]⟩
    · exact ⟨"numerical input tensor is nil", by simp [TorchModule.Forward, hm]⟩
  · intro m n
    by_cases hm : m.ptr = 0
    · exact ⟨"module is nil", by simp [TorchModule.Forward, hm]⟩
    · by_cases hn : n.ptr = 0
      · exact ⟨"numerical input tensor is nil", by simp [TorchModule.Forward, hm, hn]⟩
      · exact ⟨"categorical input tensor is nil", by simp [TorchModule.Forward, hm, hn]⟩
  · intro p
    simp [TorchModule.Free]
  · simp [TorchModule.Free]
  · intro n c
    simp [TorchModule.Forward]

/-- The tensor at pointer 1 is read, freed, freed again, read again and fed to
the module at pointer 2: the engine sees the two reading calls and one
`free_tensor 1`, nothing after it. The module at pointer 2 runs a forward
pass, is freed twice and asked for another pass: one `free_torch_module 2`. -/
theorem handle_free_at_most_once_witness :
    (TorchTensor.run twoFloats
        [.ToFloat64Slice, .Free, .Free, .ToFloat64Slice, .ForwardBoth { ptr := 2 }]
        { ptr := 1 } oneTensorOneModule).2.log =
      [.get_tensor_numel 1, .get_tensor_data 1, .free_tensor 1] ∧
    (TorchTensor.run twoFloats
        [.ToFloat64Slice, .Free, .Free, .ToFloat64Slice, .ForwardBoth { ptr := 2 }]
        { ptr := 1 } oneTensorOneModule).2.log.count (.free_tensor 1) ≤
      oneTensorOneModule.log.count (.free_tensor 1) +
        (if 1 = (TorchTensor.mk 1).ptr ∧ (TorchTensor.mk 1).ptr ≠ 0 then 1 else 0) ∧
    (TorchModule.run
        [.Forward { ptr := 1 } { ptr := 1 }, .Free, .Free, .Forward { ptr := 1 } { ptr := 1 }]
        { ptr := 2 } oneTensorOneModule).2.log =
      [.forward_module 2 1 1, .free_torch_module 2] ∧
    (TorchModule.run
        [.Forward { ptr := 1 } { ptr := 1 }, .Free, .Free, .Forward { ptr := 1 } { ptr := 1 }]
        { ptr := 2 } oneTensorOneModule).2.log.count (.free_torch_module 2) ≤
      oneTensorOneModule.log.count (.free_torch_module 2) +
        (if 2 = (TorchModule.mk 2).ptr ∧ (TorchModule.mk 2).ptr ≠ 0 then 1 else 0) :=
  ⟨by decide,
    (handle_free_at_most_once twoFloats oneTensorOneModule).2.2.2.2.2.2.1 _ _ 1,
    by decide,
    (handle_free_at_most_once twoFloats oneTensorOneModule).2.2.2.2.2.2.2.2.2.2.2 _ _ 2⟩

/-! ## Lemmas on the native tensors left by `prepareValidationInput` -/

theorem createTensorFromData_free (data : List Float32) (dims : List Int) (N : Native)
    (p : Nat) :
    NativeCall.free_tensor p ∈ (createTensorFromData data dims N).2.log ↔
      NativeCall.free_tensor p ∈ N.log := by
  unfold createTensorFromData Native.alloc
  split_ifs <;> simp

theorem createIntTensorFromData_free (data : List Float32) (dims : List Int) (N : Native)
    (p : Nat) :
    NativeCall.free_tensor p ∈ (createIntTensorFromData data dims N).2.log ↔
      NativeCall.free_tensor p ∈ N.log := by
  unfold createIntTensorFromData Native.alloc
  split_ifs <;> simp

theorem createTensors_free (b n c : Nat) (nd cd : List Float32) (N : Native) (p : Nat) :
    NativeCall.free_tensor p ∈ (createTensors b n c nd cd N).2.log ↔
      NativeCall.free_tensor p ∈ N.log := by
  unfold createTensors
  simp only
  have h1 := createTensorFromData_free nd [(b : Int), (n : Int)] N p
  have h2 := createTensorFromData_free (List.replicate 1 0) [(b : Int), 0] N p
  by_cases hn : n > 0
  · simp only [hn, if_true]
    rcases hr : createTensorFromData nd [(b : Int), (n : Int)] N with ⟨r, N1⟩
    rw [hr] at h1
    cases r with
    | error e => simpa using h1
    | ok t =>
      simp only
      have h3 := createIntTensorFromData_free cd [(b : Int), (c : Int)] N1 p
      have h4 := createIntTensorFromData_free (List.replicate 1 0) [(b : Int), 0] N1 p
      by_cases hc : c > 0
      · simp only [hc, if_true]
        rcases hr2 : createIntTensorFromData cd [(b : Int), (c : Int)] N1 with ⟨r2, N2⟩
        rw [hr2] at h3
        cases r2 <;> simp only at h3 ⊢ <;> rw [h3] <;> exact h1
      · simp only [hc, if_false]
        rcases hr2 : createIntTensorFromData (List.replicate 1 0) [(b : Int), 0] N1
          with ⟨r2, N2⟩
        rw [hr2] at h4
        cases r2 <;> simp only at h4 ⊢ <;> rw [h4] <;> exact h1
  · simp only [hn, if_false]
    rcases hr : createTensorFromData (List.replicate 1 0) [(b : Int), 0] N with ⟨r, N1⟩
    rw [hr] at h2
    cases r with
    | error e => simpa using h2
    | ok t =>
      simp only
      have h3 := createIntTensorFromData_free cd [(b : Int), (c : Int)] N1 p
      have h4 := createIntTensorFromData_free (List.replicate 1 0) [(b : Int), 0] N1 p
      by_cases hc : c > 0
      · simp only [hc, if_true]
        rcases hr2 : createIntTensorFromData cd [(b : Int), (c : Int)] N1 with ⟨r2, N2⟩
        rw [hr2] at h3
        cases r2 <;> simp only at h3 ⊢ <;> rw [h3] <;> exact h2
      · simp only [hc, if_false]
        rcases hr2 : createIntTensorFromData (List.replicate 1 0) [(b : Int), 0] N1
          with ⟨r2, N2⟩
        rw [hr2] at h4
        cases r2 <;> simp only at h4 ⊢ <;> rw [h4] <;> exact h2

theorem createTensors_first_fails (b n c : Nat) (nd cd : List Float32) (N : Native)
    (h1 : N.allocOk N.allocs = false) (hnd : 0 < n → nd ≠ []) :
    ∃ err call, createTensors b n c nd cd N =
      (.error err,
        { allocOk := N.allocOk, allocs := N.allocs + 1, live := N.live,
          log := N.log ++ [call] }) := by
  by_cases hn : 0 < n
  · have := hnd hn
    exact ⟨_, .create_tensor_from_data nd [(b : Int), (n : Int)], by
      simp [createTensors, createTensorFromData, Native.alloc, *]; rfl⟩
  · have hn0 : n = 0 := by omega
    subst hn0
    exact ⟨_, .create_tensor_from_data [0] [(b : Int), 0], by
      simp [createTensors, createTensorFromData, Native.alloc, *]; rfl⟩

theorem createTensors_second_fails (b n c : Nat) (nd cd : List Float32) (N : Native)
    (h1 : N.allocOk N.allocs = true) (h2 : N.allocOk (N.allocs + 1) = false)
    (hnd : 0 < n → nd ≠ []) (hcd : 0 < c → cd ≠ []) :
    ∃ err, createTensors b n c nd cd N =
      (.error err,
        { allocOk := N.allocOk, allocs := N.allocs + 2, live := (N.allocs + 1) :: N.live,
          log := N.log ++
            [.create_tensor_from_data (if 0 < n then nd else [0]) [(b : Int), (n : Int)],
             .create_int_tensor_from_data (if 0 < c then cd else [0])
               [(b : Int), (c : Int)]] }) := by
  by_cases hn : 0 < n <;> by_cases hc : 0 < c
  · have := hnd hn
    have := hcd hc
    exact ⟨_, by
      simp [createTensors, createTensorFromData, createIntTensorFromData, Native.alloc, *]
      rfl⟩
  · have := hnd hn
    have hc0 : c = 0 := by omega
    subst hc0
    exact ⟨_, by
      simp [createTensors, createTensorFromData, createIntTensorFromData, Native.alloc, *]
      rfl⟩
  · have := hcd hc
    have hn0 : n = 0 := by omega
    subst hn0
    exact ⟨_, by
      simp [createTensors, createTensorFromData, createIntTensorFromData, Native.alloc, *]
      rfl⟩
  · have hc0 : c = 0 := by omega
    have hn0 : n = 0 := by omega
    subst hc0 hn0
    exact ⟨_, by
      simp [createTensors, createTensorFromData, createIntTensorFromData, Native.alloc, *]
      rfl⟩

theorem createTensors_two_granted (b n c : Nat) (nd cd : List Float32) (N : Native)
    (h1 : N.allocOk N.allocs = true) (h2 : N.allocOk (N.allocs + 1) = true)
    (hnd : 0 < n → nd ≠ []) (hcd : 0 < c → cd ≠ []) :
    (createTensors b n c nd cd N).1 =
      .ok ({ ptr := N.allocs + 1 }, { ptr := N.allocs + 2 }) := by
  by_cases hn : 0 < n <;> by_cases hc : 0 < c
  · have := hnd hn
    have := hcd hc
    simp [createTensors, createTensorFromData, createIntTensorFromData, Native.alloc, *]
  · have := hnd hn
    have hc0 : c = 0 := by omega
    subst hc0
    simp [createTensors, createTensorFromData, createIntTensorFromData, Native.alloc, *]
  · have := hcd hc
    have hn0 : n = 0 := by omega
    subst hn0
    simp [createTensors, createTensorFromData, createIntTensorFromData, Native.alloc, *]
  · have hc0 : c = 0 := by omega
    have hn0 : n = 0 := by omega
    subst hc0 hn0
    simp [createTensors, createTensorFromData, createIntTensorFromData, Native.alloc, *]

/-- C12, on the failing input: the scenario batch, with the engine granting the
numerical tensor and refusing the categorical one. `prepareValidationInput`
returns the error while the numerical tensor, pointer 1, is still live,
although no tensor was live before the call: its log holds the two creation
calls and no `free_tensor`. The call of `Free` that the function omits, on the
handle it drops, would bring the live tensors back to those before the call. -/
theorem prepareValidationInput_leak :
    (prepareValidationInput exactEnv [scenarioRecord] scenarioInfo secondAllocFails).result =
      .error "failed to create categorical tensor: failed to create integer tensor" ∧
    secondAllocFails.live = [] ∧
    (prepareValidationInput exactEnv [scenarioRecord] scenarioInfo secondAllocFails).native.live =
      [1] ∧
    (prepareValidationInput exactEnv [scenarioRecord] scenarioInfo secondAllocFails).native.log =
      [.create_tensor_from_data [1, 2] [1, 2], .create_int_tensor_from_data [1] [1, 1]] ∧
    (TorchTensor.Free { ptr := 1 }
      (prepareValidationInput exactEnv [scenarioRecord] scenarioInfo
        secondAllocFails).native).2.live = secondAllocFails.live :=
  ⟨rfl, rfl, rfl, rfl, rfl⟩

/-- Where the failing paths of `prepareValidationInput` leave the native
tensors. The function never calls the native free function. When it returns
an error before a tensor exists (empty batch, missing feature, missing
encoder, or the creation of the numerical tensor fails), the live tensors are
those before the call. When the numerical tensor is created and the creation
of the categorical tensor then fails, the numerical tensor stays live. These
are all the ways the call returns an error, so the second is the only path
that leaks. -/
theorem prepareValidationInput_failure_live (env : FloatEnv)
    (validationData : List ValidationData) (featureInfo : FeatureInfo) (N : Native) :
    ((validationData = [] ∨ ¬ FeaturesPresent validationData featureInfo ∨
        ¬ EncodersPresent featureInfo) →
      (∃ err, (prepareValidationInput env validationData featureInfo N).result = .error err) ∧
      (prepareValidationInput env validationData featureInfo N).native.live = N.live ∧
      (prepareValidationInput env validationData featureInfo N).native.log = N.log) ∧
    (validationData ≠ [] → FeaturesPresent validationData featureInfo →
      EncodersPresent featureInfo → N.allocOk N.allocs = false →
      (∃ err, (prepareValidationInput env validationData featureInfo N).result = .error err) ∧
      (prepareValidationInput env validationData featureInfo N).native.live = N.live) ∧
    (validationData ≠ [] → FeaturesPresent validationData featureInfo →
      EncodersPresent featureInfo → N.allocOk N.allocs = true →
      N.allocOk (N.allocs + 1) = false →
      (∃ err, (prepareValidationInput env validationData featureInfo N).result = .error err) ∧
      (prepareValidationInput env validationData featureInfo N).native.live =
        (N.allocs + 1) :: N.live) ∧
    (∀ err, (prepareValidationInput env validationData featureInfo N).result = .error err →
      (prepareValidationInput env validationData featureInfo N).native.live = N.live ∨
      (N.allocOk N.allocs = true ∧ N.allocOk (N.allocs + 1) = false ∧
        (prepareValidationInput env validationData featureInfo N).native.live =
          (N.allocs + 1) :: N.live)) ∧
    (∀ p, NativeCall.free_tensor p ∈
        (prepareValidationInput env validationData featureInfo N).native.log →
      NativeCall.free_tensor p ∈ N.log) := by
  by_cases hbad : validationData = [] ∨ ¬ FeaturesPresent validationData featureInfo ∨
      ¬ EncodersPresent featureInfo
  · obtain ⟨out, err, h⟩ := prepareValidationData_error env validationData featureInfo hbad
    have hr := prepareValidationInput_of_error env validationData featureInfo N out err h
    have hgood : ¬ (validationData ≠ [] ∧ FeaturesPresent validationData featureInfo ∧
        EncodersPresent featureInfo) := by
      rintro ⟨a, b, c⟩
      rcases hbad with x | x | x
      · exact a x
      · exact x b
      · exact x c
    rw [hr]
    exact ⟨fun _ => ⟨⟨err, rfl⟩, rfl, rfl⟩,
      fun a b c _ => absurd ⟨a, b, c⟩ hgood,
      fun a b c _ _ => absurd ⟨a, b, c⟩ hgood,
      fun _ _ => Or.inl rfl, fun _ hp => hp⟩
  · have hgood := hbad
    push_neg at hgood
    obtain ⟨hne, hf, he⟩ := hgood
    obtain ⟨out, nd, cd, h, hl1, hl2, _, _⟩ :=
      prepareValidationData_spec env validationData featureInfo hne hf he
    have hr := prepareValidationInput_of_ok env validationData featureInfo N out nd cd h
    have hnd := buffer_ne_nil validationData hne _ nd hl1
    have hcd := buffer_ne_nil validationData hne _ cd hl2
    rw [hr]
    refine ⟨fun hb => absurd hb hbad, ?_, ?_, ?_, ?_⟩
    · intro _ _ _ h1
      obtain ⟨err, call, hc⟩ := createTensors_first_fails validationData.length
        (numericalFeatures featureInfo).length (categoricalFeatures featureInfo).length
        nd cd N h1 hnd
      rw [hc]
      exact ⟨⟨err, rfl⟩, rfl⟩
    · intro _ _ _ h1 h2
      obtain ⟨err, hc⟩ := createTensors_second_fails validationData.length
        (numericalFeatures featureInfo).length (categoricalFeatures featureInfo).length
        nd cd N h1 h2 hnd hcd
      rw [hc]
      exact ⟨⟨err, rfl⟩, rfl⟩
    · intro err herr
      simp only at herr
      cases h1 : N.allocOk N.allocs with
      | false =>
        obtain ⟨e, call, hc⟩ := createTensors_first_fails validationData.length
          (numericalFeatures featureInfo).length (categoricalFeatures featureInfo).length
          nd cd N h1 hnd
        rw [hc]
        exact Or.inl rfl
      | true =>
        cases h2 : N.allocOk (N.allocs + 1) with
        | false =>
          obtain ⟨e, hc⟩ := createTensors_second_fails validationData.length
            (numericalFeatures featureInfo).length (categoricalFeatures featureInfo).length
            nd cd N h1 h2 hnd hcd
          rw [hc]
          exact Or.inr ⟨rfl, rfl, rfl⟩
        | true =>
          rw [createTensors_two_granted _ _ _ nd cd N h1 h2 hnd hcd] at herr
          cases herr
    · intro p hp
      exact (createTensors_free _ _ _ nd cd N p).mp hp

end TorchDemo
